import Mathlib

/-!
# Sequential file I/O benchmark (golang/main.go)

A shallow embedding of benchmarkIO and `main` of `golang/main.go`.

The Go program talks to the operating system; here every call to the
operating system is a function on an explicit `World` (the files and a log of
the calls issued), and everything the program cannot control (which calls
fail and with which errno, how many bytes a `Read` returns, what the
monotonic clock shows) is read from an explicit `Env`.

* `float64` seconds are exact rationals; a quotient whose divisor is zero is
  one of the three non-finite values of `F64`.
* A path names a regular file, a link to another name (a hard link or a
  symbolic link: the name stored is the one at which the chain of links
  ends), or nothing. A call on a path acts on the file the path resolves to;
  `os.Remove` removes the directory entry of the path itself. A chain of
  links that does not end is a failing call (ELOOP), like every failure that
  the files alone do not explain (EACCES, ENOTDIR, ENOSPC): `Env` injects it.
* The two `for` loops carry a fuel counter; benchmarkIO supplies the length
  of the file that is read plus one, and `none` stands for a loop that has
  not finished within its fuel. `copyLoop_total`, `readLoop_run` and
  `benchmarkIO_sound` show that this never happens.
-/

namespace GoBench

/-! ## Errors -/

/-- Error values the program handles. `pathError` is the `*fs.PathError` of
package `os`, `numError` the `*strconv.NumError`, `errorf` a value built by
`fmt.Errorf`, `eof` the sentinel `io.EOF`, `encodeError` a failure of
`json.Marshal`. -/
inductive GoError where
  | eof
  | errorf (msg : String)
  | pathError (op : String) (path : String) (errno : Nat)
  | numError (fn : String) (num : String) (cause : String)
  | encodeError (msg : String)
  deriving DecidableEq, Repr

/-- The errno "no such file or directory". -/
def ENOENT : Nat := 2

/-- Go `os.IsNotExist(err)`, for the error values of this model. -/
def isNotExist : Option GoError → Bool
  | some (.pathError _ _ errno) => errno == ENOENT
  | _ => false

/-! ## Files -/

abbrev Byte := UInt8

/-- The files: `files` holds the content of the regular file stored under a
name, `links` the name a link resolves to (`none`: the name is no link). A
name has a link or a regular file, not both; should both be stored, the link
is the entry of the name, and removing the name removes both. -/
structure FS where
  files : String → Option (List Byte)
  links : String → Option String

/-- The name of the file a path resolves to: the target of the link, or the
path itself. -/
def FS.resolve (fs : FS) (path : String) : String :=
  (fs.links path).getD path

/-- The content a path leads to: that of the file it resolves to, `none` when
there is no such file. -/
def FS.lookup (fs : FS) (path : String) : Option (List Byte) :=
  fs.files (fs.resolve path)

/-- There is a directory entry (a link or a regular file) under the very name
`path`. -/
def FS.present (fs : FS) (path : String) : Bool :=
  (fs.links path).isSome || (fs.files path).isSome

/-- Calls issued to the operating system. -/
inductive Op where
  | stat (path : String)
  | openRead (path : String)
  | create (path : String)
  | read (path : String)
  | write (path : String) (data : List Byte)
  | remove (path : String)
  | close (path : String)
  deriving DecidableEq, Repr

/-- The path a call is issued on, when the call creates, truncates, writes
or removes a file. -/
def Op.target : Op → Option String
  | .create p => some p
  | .write p _ => some p
  | .remove p => some p
  | _ => none

/-- One call together with the error it returned (`none`: no error). -/
structure Event where
  op : Op
  err : Option GoError
  deriving DecidableEq, Repr

/-- The files together with the log of the calls issued so far (oldest
first). -/
structure World where
  fs : FS
  trace : List Event

/-- Append one call and its error to the log. -/
def World.log (w : World) (op : Op) (err : Option GoError) : World :=
  { w with trace := w.trace ++ [⟨op, err⟩] }

/-- Replace the regular file stored under the name `node`. -/
def FS.set (fs : FS) (node : String) (v : Option (List Byte)) : FS :=
  { fs with files := fun q => if q = node then v else fs.files q }

/-- Remove the directory entry of `path`. -/
def FS.unlink (fs : FS) (path : String) : FS :=
  { files := fun q => if q = path then none else fs.files q
    links := fun q => if q = path then none else fs.links q }

/-- An open file (`*os.File`): the path it was opened with, the name of the
file that path resolved to, and the current offset. -/
structure Handle where
  path : String
  node : String
  off : Nat
  deriving DecidableEq, Repr

/-- What one call of `Read` does: fill the buffer as far as the file allows,
return only `n` bytes (at least one, never more than available or than the
buffer holds), or fail with an errno. -/
inductive ReadStep where
  | full
  | short (n : Nat)
  | fail (errno : Nat)
  deriving DecidableEq, Repr

/-- What one call of `Write` does: write everything, or write only the first
`written` bytes and fail with an errno. -/
inductive WriteStep where
  | ok
  | fail (written : Nat) (errno : Nat)
  deriving DecidableEq, Repr

/-- Everything outside the program's control during one run. -/
structure Env where
  /-- errno with which `os.Stat(inputPath)` fails for a reason the files do
  not show (ENOTDIR, EACCES, ELOOP), if it does -/
  statFault : Option Nat
  /-- errno with which `os.Open(inputPath)` fails, if it does -/
  openInFault : Option Nat
  /-- errno with which `os.Create(outputPath)` fails, if it does -/
  createFault : Option Nat
  /-- behaviour of the successive calls `fin.Read(buf)`; `full` once used up -/
  copyReads : List ReadStep
  /-- behaviour of the successive calls `fout.Write(buf[:n])`; `ok` once used up -/
  copyWrites : List WriteStep
  /-- errno with which `os.Open(outputPath)` fails, if it does -/
  openOutFault : Option Nat
  /-- behaviour of the successive calls `f.Read(buf)`; `full` once used up -/
  backReads : List ReadStep
  /-- errno with which `os.Remove(outputPath)` fails, if it does -/
  removeFault : Option Nat
  /-- monotonic clock (nanoseconds) at `time.Now()` of line 31 -/
  t0 : Int
  /-- monotonic clock at `time.Since` of line 57 -/
  t1 : Int
  /-- monotonic clock at `time.Now()` of line 60 -/
  t2 : Int
  /-- monotonic clock at `time.Since` of line 76 -/
  t3 : Int

/-- Go `os.Stat(path)`, keeping only the error: the injected failure, else
ENOENT when the path leads to no file. -/
def osStat (path : String) (fault : Option Nat) (w : World) : Option GoError × World :=
  match w.fs.lookup path with
  | none =>
    (some (.pathError "stat" path (fault.getD ENOENT)),
      w.log (.stat path) (some (.pathError "stat" path (fault.getD ENOENT))))
  | some _ =>
    (fault.map (GoError.pathError "stat" path),
      w.log (.stat path) (fault.map (GoError.pathError "stat" path)))

/-- Go `os.Open(path)`: the injected failure, else ENOENT when the path leads
to no file, else the file the path resolves to, at offset 0. -/
def osOpen (path : String) (fault : Option Nat) (w : World) : Except GoError Handle × World :=
  match w.fs.lookup path with
  | none =>
    (.error (.pathError "open" path (fault.getD ENOENT)),
      w.log (.openRead path) (some (.pathError "open" path (fault.getD ENOENT))))
  | some _ =>
    match fault with
    | some e =>
      (.error (.pathError "open" path e), w.log (.openRead path) (some (.pathError "open" path e)))
    | none => (.ok ⟨path, w.fs.resolve path, 0⟩, w.log (.openRead path) none)

/-- Go `os.Create(path)`: create the file the path resolves to, or truncate
it when it exists. -/
def osCreate (path : String) (fault : Option Nat) (w : World) : Except GoError Handle × World :=
  match fault with
  | some e =>
    (.error (.pathError "open" path e), w.log (.create path) (some (.pathError "open" path e)))
  | none =>
    (.ok ⟨path, w.fs.resolve path, 0⟩,
      { fs := w.fs.set (w.fs.resolve path) (some []),
        trace := w.trace ++ [⟨.create path, none⟩] })

/-- Go `os.Remove(path)`, keeping only the error: the injected failure, else
ENOENT when there is no entry of that name, else the entry is removed (a link
itself, not the file it leads to). -/
def osRemove (path : String) (fault : Option Nat) (w : World) : Option GoError × World :=
  if w.fs.present path = false then
    (some (.pathError "remove" path (fault.getD ENOENT)),
      w.log (.remove path) (some (.pathError "remove" path (fault.getD ENOENT))))
  else
    match fault with
    | some e =>
      (some (.pathError "remove" path e), w.log (.remove path) (some (.pathError "remove" path e)))
    | none => (none, { fs := w.fs.unlink path, trace := w.trace ++ [⟨.remove path, none⟩] })

/-- Go `f.Close()`; the program ignores its error. -/
def fileClose (f : Handle) (w : World) : World :=
  w.log (.close f.path) none

/-- The bytes of `f` from its offset on (none when the file is gone). -/
def available (f : Handle) (w : World) : List Byte :=
  ((w.fs.files f.node).getD []).drop f.off

/-- Number of bytes a successful `Read` returns. -/
def readCount (step : ReadStep) (bufLen avail : Nat) : Nat :=
  match step with
  | .short n => min bufLen (max 1 (min n avail))
  | _ => min bufLen avail

/-- Result of `f.Read(buf)`: the bytes `buf[:n]`, the error, the file with its
new offset, the world. -/
structure ReadResult where
  data : List Byte
  err : Option GoError
  file : Handle
  world : World

/-- Go `f.Read(buf)` of `*os.File` with `len(buf) = bufLen`: at the end of the
file `0, io.EOF`; on a failure `0, err`; otherwise between 1 and `bufLen`
bytes and no error. -/
def fileRead (f : Handle) (bufLen : Nat) (step : ReadStep) (w : World) : ReadResult :=
  match step with
  | .fail e =>
    ⟨[], some (.pathError "read" f.path e), f,
      w.log (.read f.path) (some (.pathError "read" f.path e))⟩
  | _ =>
    if (available f w).length = 0 then
      ⟨[], some .eof, f, w.log (.read f.path) (some .eof)⟩
    else
      ⟨(available f w).take (readCount step bufLen (available f w).length), none,
        { f with off := f.off + readCount step bufLen (available f w).length },
        w.log (.read f.path) none⟩

/-- Content of a file after `data` is written at offset `off`. -/
def writeAt (content : List Byte) (off : Nat) (data : List Byte) : List Byte :=
  content.take off ++ List.replicate (off - content.length) 0 ++ data
    ++ content.drop (off + data.length)

/-- Store `data` at offset `off` of the file named `node`. -/
def FS.pwrite (fs : FS) (node : String) (off : Nat) (data : List Byte) : FS :=
  match fs.files node with
  | none => fs
  | some c => fs.set node (some (writeAt c off data))

/-- Go `f.Write(b)`: the error, the file with its new offset, the world. -/
def fileWrite (f : Handle) (b : List Byte) (step : WriteStep) (w : World) :
    Option GoError × Handle × World :=
  match step with
  | .ok =>
    (none, { f with off := f.off + b.length },
      { fs := w.fs.pwrite f.node f.off b, trace := w.trace ++ [⟨.write f.path b, none⟩] })
  | .fail k e =>
    (some (.pathError "write" f.path e), { f with off := f.off + (b.take k).length },
      { fs := w.fs.pwrite f.node f.off (b.take k),
        trace := w.trace ++ [⟨.write f.path b, some (.pathError "write" f.path e)⟩] })

/-! ## The benchmark -/

/-- Exact stand-in for a `float64` quotient: a rational, or what IEEE division
gives when the divisor is zero. -/
inductive F64 where
  | finite (q : ℚ)
  | posInf
  | negInf
  | nan
  deriving DecidableEq

/-- Go `a / b` on `float64`, over exact values. -/
def fdiv (a b : ℚ) : F64 :=
  if b = 0 then
    if 0 < a then .posInf else if a < 0 then .negInf else .nan
  else .finite (a / b)

/-- Go `time.Since(start)` with the clock now showing `now`: nanoseconds. -/
def since (start now : Int) : Int := now - start

/-- Go `Duration.Seconds()`. -/
def seconds (d : Int) : ℚ := (d : ℚ) / 1000000000

/-- The record `BenchmarkResult` (lines 12-19); Go `int` is an integer, the
two times are seconds. -/
structure BenchmarkResult where
  Language : String
  FileSizeMB : Int
  ReadTime : ℚ
  WriteTime : ℚ
  ReadThroughputMBS : F64
  WriteThroughputMBS : F64
  deriving DecidableEq

/-- Length of the buffer `buf` (line 44). -/
def bufSize : Nat := 8192

/-- Go `fmt.Sprintf("../data/test_%dmb.txt", fileSizeMB)`. -/
def inputPath (fileSizeMB : Int) : String :=
  "../data/test_" ++ toString fileSizeMB ++ "mb.txt"

/-- Go `fmt.Sprintf("../data/test_%dmb.go.out", fileSizeMB)`. -/
def outputPath (fileSizeMB : Int) : String :=
  "../data/test_" ++ toString fileSizeMB ++ "mb.go.out"

/-- The copy loop, lines 45-56. `some (none, w)`: the loop left through
`break`; `some (some e, w)`: the function returns `e`; `none`: out of fuel. -/
def copyLoop : Nat → List ReadStep → List WriteStep → Handle → Handle → World →
    Option (Option GoError × World)
  | 0, _, _, _, _, _ => none
  | fuel + 1, rs, ws, fin, fout, w =>
    let r := fileRead fin bufSize (rs.headD .full) w
    if r.err ≠ none ∧ r.err ≠ some .eof then some (r.err, r.world)
    else if r.data.length = 0 then some (none, r.world)
    else
      match fileWrite fout r.data (ws.headD .ok) r.world with
      | (some e, _, w2) => some (some e, w2)
      | (none, fout2, w2) => copyLoop fuel rs.tail ws.tail r.file fout2 w2

/-- The read-back loop, lines 67-75. Results as for `copyLoop`. -/
def readLoop : Nat → List ReadStep → Handle → World → Option (Option GoError × World)
  | 0, _, _, _ => none
  | fuel + 1, rs, f, w =>
    let r := fileRead f bufSize (rs.headD .full) w
    if r.err ≠ none ∧ r.err ≠ some .eof then some (r.err, r.world)
    else if r.data.length = 0 then some (none, r.world)
    else readLoop fuel rs.tail r.file r.world

/-- Length of the file named `node`, 0 when there is none. -/
def fileLen (w : World) (node : String) : Nat :=
  ((w.fs.files node).getD []).length

/-- What a call of benchmarkIO returns and the world it leaves. -/
structure Run where
  ret : Except GoError BenchmarkResult
  world : World

/-- The function benchmarkIO, lines 21-89. The deferred `Close` calls run
when the function returns, last opened first. -/
def benchmarkIO (fileSizeMB : Int) (env : Env) (w : World) : Option Run :=
  match osStat (inputPath fileSizeMB) env.statFault w with
  | (serr, w1) =>
  if isNotExist serr then
    some ⟨.error (.errorf ("test file " ++ inputPath fileSizeMB ++ " not found")), w1⟩
  else
    match osOpen (inputPath fileSizeMB) env.openInFault w1 with
    | (.error e, w2) => some ⟨.error e, w2⟩
    | (.ok fin, w2) =>
      match osCreate (outputPath fileSizeMB) env.createFault w2 with
      | (.error e, w3) => some ⟨.error e, fileClose fin w3⟩
      | (.ok fout, w3) =>
        match copyLoop (fileLen w3 fin.node + 1) env.copyReads env.copyWrites fin fout w3 with
        | none => none
        | some (some e, w4) => some ⟨.error e, fileClose fin (fileClose fout w4)⟩
        | some (none, w4) =>
          match osOpen (outputPath fileSizeMB) env.openOutFault w4 with
          | (.error e, w5) => some ⟨.error e, fileClose fin (fileClose fout w5)⟩
          | (.ok f, w5) =>
            match readLoop (fileLen w5 f.node + 1) env.backReads f w5 with
            | none => none
            | some (some e, w6) =>
              some ⟨.error e, fileClose fin (fileClose fout (fileClose f w6))⟩
            | some (none, w6) =>
              match osRemove (outputPath fileSizeMB) env.removeFault w6 with
              | (_, w7) =>
                some ⟨.ok
                  { Language := "golang"
                    FileSizeMB := fileSizeMB
                    ReadTime := seconds (since env.t2 env.t3)
                    WriteTime := seconds (since env.t0 env.t1)
                    ReadThroughputMBS := fdiv fileSizeMB (seconds (since env.t2 env.t3))
                    WriteThroughputMBS := fdiv fileSizeMB (seconds (since env.t0 env.t1)) },
                  fileClose fin (fileClose fout (fileClose f w7))⟩

/-! ## The command line -/

/-- Value of a string of decimal digits. -/
def digitsValue (ds : List Char) : Nat :=
  ds.foldl (fun n c => n * 10 + (c.toNat - '0'.toNat)) 0

/-- Sign and digits of a number as written: a leading `-` or `+` is split
off. -/
def splitSign : List Char → Bool × List Char
  | '-' :: ds => (true, ds)
  | '+' :: ds => (false, ds)
  | ds => (false, ds)

/-- Go `strconv.Atoi(s)` for the 64-bit `int` (library function, in the words
of its documentation): an optional sign followed by one or more decimal
digits, a value outside the range of `int` being an error. -/
def Atoi (s : String) : Except GoError Int :=
  match splitSign s.data with
  | (neg, ds) =>
    if ds = [] ∨ ds.all Char.isDigit = false then
      .error (.numError "Atoi" s "invalid syntax")
    else if neg then
      if digitsValue ds ≤ 2 ^ 63 then .ok (-(digitsValue ds : Int))
      else .error (.numError "Atoi" s "value out of range")
    else
      if digitsValue ds < 2 ^ 63 then .ok (digitsValue ds : Int)
      else .error (.numError "Atoi" s "value out of range")

/-- How the process ends: exit code, what was written to standard output and
to standard error, and the world it leaves. -/
structure Exit where
  code : Nat
  stdout : String
  stderr : String
  world : World

/-- The function `main`, lines 91-116, started as `prog argv...`, so that
`os.Args` is `prog :: argv`. The two library functions whose text output the
program prints are arguments: `marshal` is `json.Marshal` on a
`*BenchmarkResult`, `errText` is what `%v` prints for an error. `none`: a
loop of benchmarkIO ran out of fuel. -/
def main (marshal : BenchmarkResult → Except GoError String) (errText : GoError → String)
    (prog : String) (argv : List String) (env : Env) (w : World) : Option Exit :=
  if (prog :: argv).length ≠ 2 then
    some ⟨1, "", "Usage: " ++ prog ++ " <file_size_mb>\n", w⟩
  else
    match Atoi (argv.headD "") with
    | .error e => some ⟨1, "", "Invalid file size: " ++ errText e ++ "\n", w⟩
    | .ok fileSizeMB =>
      match benchmarkIO fileSizeMB env w with
      | none => none
      | some ⟨.error e, w1⟩ => some ⟨1, "", "Benchmark failed: " ++ errText e ++ "\n", w1⟩
      | some ⟨.ok result, w1⟩ =>
        match marshal result with
        | .error e => some ⟨1, "", "JSON encoding failed: " ++ errText e ++ "\n", w1⟩
        | .ok jsonOutput => some ⟨0, jsonOutput ++ "\n", "", w1⟩

/-! ## Vocabulary of the specification -/

/-- A decimal integer as the command line expects it: an optional sign
followed by one or more decimal digits. -/
def isDecimalInteger (s : String) : Bool :=
  !(splitSign s.data).2.isEmpty && (splitSign s.data).2.all Char.isDigit

/-- A read step that is a failure. -/
def ReadStep.isFail : ReadStep → Bool
  | .fail _ => true
  | _ => false

/-- No call to the operating system fails during the run. -/
def Env.noFaults (env : Env) : Prop :=
  env.statFault = none ∧ env.openInFault = none ∧ env.createFault = none ∧
  (∀ s ∈ env.copyReads, s.isFail = false) ∧ (∀ s ∈ env.copyWrites, s = WriteStep.ok) ∧
  env.openOutFault = none ∧ (∀ s ∈ env.backReads, s.isFail = false) ∧
  env.removeFault = none

/-- The bytes handed to `Write` calls on `path`, in the order of the calls. -/
def written (path : String) : List Event → List Byte
  | [] => []
  | ⟨.write p data, _⟩ :: evs => if p = path then data ++ written path evs else written path evs
  | _ :: evs => written path evs

/-- The record a run reports when it reaches line 81. -/
def report (fileSizeMB : Int) (env : Env) : BenchmarkResult :=
  { Language := "golang"
    FileSizeMB := fileSizeMB
    ReadTime := seconds (since env.t2 env.t3)
    WriteTime := seconds (since env.t0 env.t1)
    ReadThroughputMBS := fdiv fileSizeMB (seconds (since env.t2 env.t3))
    WriteThroughputMBS := fdiv fileSizeMB (seconds (since env.t0 env.t1)) }

/-- A call that opens, reads or writes a file. -/
def Op.isOpenReadWrite : Op → Bool
  | .openRead _ => true
  | .create _ => true
  | .read _ => true
  | .write _ _ => true
  | _ => false

/-- From `w` to `w2` the program logged `evs`; it changed no link other than
the one named `out` and no regular file other than those named `out` and
`node`, every call that changes a file being a call on the path `out`. -/
def Stretch (out node : String) (w w2 : World) (evs : List Event) : Prop :=
  w2.trace = w.trace ++ evs ∧ (∀ q, q ≠ out → w2.fs.links q = w.fs.links q) ∧
    (∀ q, q ≠ out → q ≠ node → w2.fs.files q = w.fs.files q) ∧
    ∀ ev ∈ evs, ev.op.target = none ∨ ev.op.target = some out

/-- No call of `evs` that opens, reads or writes a file failed (`io.EOF` is
the end of the file, not a failure). -/
def Quiet (evs : List Event) : Prop :=
  ∀ ev ∈ evs, ev.op.isOpenReadWrite = true → ∀ e, ev.err = some e → e = .eof

/-- Every failure of a call of `evs` that opens, reads or writes a file is
what `ret` returns. -/
def Reported (ret : Except GoError BenchmarkResult) (evs : List Event) : Prop :=
  ∀ ev ∈ evs, ev.op.isOpenReadWrite = true → ∀ e, ev.err = some e → e ≠ .eof → ret = .error e

/-- The run `run` started in `w` is a stretch that touches only the entry
`out` and the file `node`, and reports its failures. -/
def Run.sound (out node : String) (w : World) (run : Run) : Prop :=
  ∃ evs, Stretch out node w run.world evs ∧ Reported run.ret evs

instance (env : Env) : Decidable env.noFaults := by
  unfold Env.noFaults
  infer_instance

/-! ## Sample inputs -/

/-- A run in which nothing fails; the clock shows 0, 5, 6 and 9 ns. -/
def sampleEnv : Env :=
  { statFault := none, openInFault := none, createFault := none, copyReads := [],
    copyWrites := [], openOutFault := none, backReads := [], removeFault := none,
    t0 := 0, t1 := 5, t2 := 6, t3 := 9 }

/-- As `sampleEnv`, but `os.Remove` fails with errno 1 (EPERM: for instance
the output file lies in a sticky directory and belongs to someone else). -/
def removeFailsEnv : Env := { sampleEnv with removeFault := some 1 }

/-- As `sampleEnv`, but the first `Write` stores one byte and fails with
errno 28 (ENOSPC). -/
def writeFailsEnv : Env := { sampleEnv with copyWrites := [.fail 1 28] }

/-- As `sampleEnv`, but `os.Stat` and `os.Open` of the input path fail with
errno 20 (ENOTDIR: `../data` is not a directory). -/
def notDirEnv : Env := { sampleEnv with statFault := some 20, openInFault := some 20 }

/-- A world whose only file is the input of size 1, holding three bytes. -/
def sampleWorld : World :=
  ⟨⟨fun p => if p = "../data/test_1mb.txt" then some [1, 2, 3] else none, fun _ => none⟩, []⟩

/-- As `sampleWorld`, with a stale output file left by somebody else. -/
def staleWorld : World :=
  ⟨⟨fun p => if p = "../data/test_1mb.txt" then some [1, 2, 3]
      else if p = "../data/test_1mb.go.out" then some [9, 9, 9, 9, 9] else none,
    fun _ => none⟩, []⟩

/-- As `sampleWorld`, but the output name is a link to the input file. -/
def linkedWorld : World :=
  ⟨⟨fun p => if p = "../data/test_1mb.txt" then some [1, 2, 3] else none,
    fun p => if p = "../data/test_1mb.go.out" then some "../data/test_1mb.txt" else none⟩, []⟩

/-- A world in which the three bytes are stored under the output name and the
input path is a symbolic link to it. -/
def backLinkedWorld : World :=
  ⟨⟨fun p => if p = "../data/test_1mb.go.out" then some [1, 2, 3] else none,
    fun p => if p = "../data/test_1mb.txt" then some "../data/test_1mb.go.out" else none⟩, []⟩

/-- A world without files. -/
def emptyWorld : World := ⟨⟨fun _ => none, fun _ => none⟩, []⟩

/-- A `json.Marshal` that always succeeds with a fixed text. -/
def sampleMarshal : BenchmarkResult → Except GoError String := fun _ => .ok "JSON"

/-- An error printer that prints nothing about the error. -/
def sampleErrText : GoError → String := fun _ => "error"

/-! ## Files: basic facts -/

/-! ## Files: basic facts -/

theorem FS.set_same (fs : FS) (p : String) (v : Option (List Byte)) :
    (fs.set p v).files p = v := by
  simp [FS.set]

theorem FS.set_other (fs : FS) (p q : String) (v : Option (List Byte)) (h : q ≠ p) :
    (fs.set p v).files q = fs.files q := by
  simp [FS.set, h]

theorem FS.set_resolve (fs : FS) (p q : String) (v : Option (List Byte)) :
    (fs.set p v).resolve q = fs.resolve q := rfl

theorem FS.pwrite_other (fs : FS) (p q : String) (off : Nat) (d : List Byte) (h : q ≠ p) :
    (fs.pwrite p off d).files q = fs.files q := by
  unfold FS.pwrite
  cases fs.files p with
  | none => rfl
  | some c => exact FS.set_other _ _ _ _ h

theorem FS.pwrite_links (fs : FS) (p : String) (off : Nat) (d : List Byte) :
    (fs.pwrite p off d).links = fs.links := by
  unfold FS.pwrite
  cases fs.files p <;> rfl

theorem writeAt_end (c d : List Byte) : writeAt c c.length d = c ++ d := by
  simp [writeAt]

theorem FS.set_set (fs : FS) (p : String) (u v : Option (List Byte)) :
    (fs.set p u).set p v = fs.set p v := by
  simp only [FS.set, FS.mk.injEq, and_true]
  funext q
  by_cases h : q = p <;> simp [h]

theorem FS.set_eq_self (fs : FS) (p : String) (v : Option (List Byte)) (h : fs.files p = v) :
    fs.set p v = fs := by
  obtain ⟨files, links⟩ := fs
  simp only [FS.set, FS.mk.injEq, and_true]
  funext q
  by_cases h2 : q = p
  · subst h2; simp [← h]
  · simp [h2]

theorem FS.pwrite_end (fs : FS) (p : String) (acc d : List Byte) (h : fs.files p = some acc) :
    fs.pwrite p acc.length d = fs.set p (some (acc ++ d)) := by
  unfold FS.pwrite
  rw [h]
  simp only [writeAt_end]

theorem FS.unlink_files (fs : FS) (p : String) : (fs.unlink p).files p = none := by
  simp [FS.unlink]

theorem FS.unlink_links (fs : FS) (p : String) : (fs.unlink p).links p = none := by
  simp [FS.unlink]

theorem FS.unlink_files_other (fs : FS) (p q : String) (h : q ≠ p) :
    (fs.unlink p).files q = fs.files q := by
  simp [FS.unlink, h]

theorem FS.unlink_links_other (fs : FS) (p q : String) (h : q ≠ p) :
    (fs.unlink p).links q = fs.links q := by
  simp [FS.unlink, h]

theorem FS.set_unlink (fs : FS) (p : String) (v : Option (List Byte)) :
    (fs.set p v).unlink p = fs.unlink p := by
  simp only [FS.unlink, FS.set, FS.mk.injEq, and_true]
  funext q
  by_cases h : q = p <;> simp [h]

theorem FS.unlink_absent (fs : FS) (p : String) (h1 : fs.files p = none)
    (h2 : fs.links p = none) : fs.unlink p = fs := by
  obtain ⟨files, links⟩ := fs
  simp only [FS.unlink, FS.mk.injEq]
  constructor
  · funext q
    by_cases h : q = p
    · subst h; simp only [if_true]; exact h1.symm
    · simp [h]
  · funext q
    by_cases h : q = p
    · subst h; simp only [if_true]; exact h2.symm
    · simp [h]

/-! ## The two paths of a run -/

theorem suffix_clash (a b : List Char) :
    a ++ "mb.txt".data ≠ b ++ "mb.go.out".data := by
  intro h
  have h2 := congrArg List.reverse h
  simp [List.reverse_append] at h2

theorem inputPath_ne_outputPath (n m : Int) : inputPath n ≠ outputPath m := by
  intro h
  have h2 := congrArg String.data h
  simp only [inputPath, outputPath, String.data_append] at h2
  exact suffix_clash _ _ h2

/-! ## One call of Read or Write -/

theorem fileRead_fs (f : Handle) (n : Nat) (s : ReadStep) (w : World) :
    (fileRead f n s w).world.fs = w.fs := by
  unfold fileRead
  split
  · rfl
  · split <;> rfl

theorem fileRead_trace (f : Handle) (n : Nat) (s : ReadStep) (w : World) :
    (fileRead f n s w).world.trace = w.trace ++ [⟨.read f.path, (fileRead f n s w).err⟩] := by
  unfold fileRead
  split
  · rfl
  · split <;> rfl

theorem fileRead_path (f : Handle) (n : Nat) (s : ReadStep) (w : World) :
    (fileRead f n s w).file.path = f.path := by
  unfold fileRead
  split
  · rfl
  · split <;> rfl

theorem readCount_pos (s : ReadStep) (a : Nat) (h : 0 < a) : 0 < readCount s bufSize a := by
  unfold readCount bufSize
  split <;> omega

theorem readCount_le (s : ReadStep) (n a : Nat) (h : 0 < a) : readCount s n a ≤ a := by
  unfold readCount
  split <;> omega

theorem readCount_le_buf (s : ReadStep) (n a : Nat) : readCount s n a ≤ n := by
  unfold readCount
  split <;> omega

/-- The three outcomes of a `Read`: a failure, the end of the file, or at
least one byte. -/
theorem fileRead_cases (f : Handle) (s : ReadStep) (w : World) :
    (∃ e, s = .fail e ∧ (fileRead f bufSize s w).err = some (.pathError "read" f.path e) ∧
        (fileRead f bufSize s w).data = []) ∨
    (s.isFail = false ∧ (available f w).length = 0 ∧ (fileRead f bufSize s w).err = some .eof ∧
        (fileRead f bufSize s w).data = []) ∨
    (s.isFail = false ∧ 0 < (available f w).length ∧ (fileRead f bufSize s w).err = none ∧
        (fileRead f bufSize s w).data
          = (available f w).take (readCount s bufSize (available f w).length) ∧
        (fileRead f bufSize s w).file
          = ⟨f.path, f.node, f.off + readCount s bufSize (available f w).length⟩) := by
  cases s with
  | fail e => left; exact ⟨e, rfl, rfl, rfl⟩
  | full =>
    right
    by_cases h : (available f w).length = 0
    · left; simp [fileRead, h, ReadStep.isFail]
    · right; simp [fileRead, h, ReadStep.isFail]; omega
  | short k =>
    right
    by_cases h : (available f w).length = 0
    · left; simp [fileRead, h, ReadStep.isFail]
    · right; simp [fileRead, h, ReadStep.isFail]; omega

theorem fileWrite_fs_other (f : Handle) (b : List Byte) (s : WriteStep) (w : World) (q : String)
    (h : q ≠ f.node) : (fileWrite f b s w).2.2.fs.files q = w.fs.files q := by
  cases s with
  | ok => exact FS.pwrite_other _ _ _ _ _ h
  | fail k e => exact FS.pwrite_other _ _ _ _ _ h

theorem fileWrite_links (f : Handle) (b : List Byte) (s : WriteStep) (w : World) :
    (fileWrite f b s w).2.2.fs.links = w.fs.links := by
  cases s with
  | ok => exact FS.pwrite_links _ _ _ _
  | fail k e => exact FS.pwrite_links _ _ _ _

theorem fileWrite_node (f : Handle) (b : List Byte) (s : WriteStep) (w : World) :
    (fileWrite f b s w).2.1.node = f.node := by
  cases s <;> rfl

theorem fileWrite_trace (f : Handle) (b : List Byte) (s : WriteStep) (w : World) :
    (fileWrite f b s w).2.2.trace = w.trace ++ [⟨.write f.path b, (fileWrite f b s w).1⟩] := by
  cases s <;> rfl

theorem fileWrite_path (f : Handle) (b : List Byte) (s : WriteStep) (w : World) :
    (fileWrite f b s w).2.1.path = f.path := by
  cases s <;> rfl

/-! ## The read-back loop -/

theorem readLoop_spec (fuel : Nat) : ∀ (rs : List ReadStep) (f : Handle) (w : World)
    (r : Option GoError) (w2 : World), readLoop fuel rs f w = some (r, w2) →
    w2.fs = w.fs ∧ r ≠ some .eof ∧ ∃ evs, w2.trace = w.trace ++ evs ∧
      (∀ ev ∈ evs, ev.op = .read f.path) ∧
      (∀ ev ∈ evs, ∀ e, ev.err = some e → e ≠ .eof → r = some e) := by
  induction fuel with
  | zero => intro rs f w r w2 h; simp [readLoop] at h
  | succ fuel ih =>
    intro rs f w r w2 h
    simp only [readLoop] at h
    have htr := fileRead_trace f bufSize (rs.headD .full) w
    have hfs := fileRead_fs f bufSize (rs.headD .full) w
    have hpath := fileRead_path f bufSize (rs.headD .full) w
    generalize fileRead f bufSize (rs.headD .full) w = rr at h htr hfs hpath
    split at h
    · rename_i hc
      simp only [Option.some.injEq, Prod.mk.injEq] at h
      obtain ⟨h1, h2⟩ := h
      subst h1 h2
      refine ⟨hfs, hc.2, _, htr, ?_, ?_⟩
      · intro ev hev
        rw [List.mem_singleton] at hev
        subst hev
        rfl
      · intro ev hev e he _
        rw [List.mem_singleton] at hev
        subst hev
        exact he
    · rename_i hc
      split at h
      · simp only [Option.some.injEq, Prod.mk.injEq] at h
        obtain ⟨h1, h2⟩ := h
        subst h1 h2
        refine ⟨hfs, by simp, _, htr, ?_, ?_⟩
        · intro ev hev
          rw [List.mem_singleton] at hev
          subst hev
          rfl
        · intro ev hev e he hne
          rw [List.mem_singleton] at hev
          subst hev
          exfalso
          apply hc
          simp only at he
          rw [he]
          simp [hne]
      · obtain ⟨h1, h2, evs, h3, h4, h5⟩ := ih _ _ _ _ _ h
        rw [hpath] at h4
        refine ⟨h1.trans hfs, h2, ⟨.read f.path, rr.err⟩ :: evs, ?_, ?_, ?_⟩
        · rw [h3, htr]; simp
        · intro ev hev
          rcases List.mem_cons.1 hev with h6 | h6
          · subst h6; rfl
          · exact h4 ev h6
        · intro ev hev e he hne
          rcases List.mem_cons.1 hev with h6 | h6
          · exfalso
            apply hc
            subst h6
            simp only at he
            rw [he]
            simp [hne]
          · exact h5 ev h6 e he hne

theorem headD_not_fail (rs : List ReadStep) (h : ∀ s ∈ rs, s.isFail = false) :
    (rs.headD .full).isFail = false := by
  cases rs with
  | nil => rfl
  | cons s t => exact h s (List.mem_cons_self _ _)

theorem tail_not_fail (rs : List ReadStep) (h : ∀ s ∈ rs, s.isFail = false) :
    ∀ s ∈ rs.tail, s.isFail = false :=
  fun s hs => h s (List.mem_of_mem_tail hs)

theorem headD_ok (ws : List WriteStep) (h : ∀ s ∈ ws, s = WriteStep.ok) :
    ws.headD .ok = .ok := by
  cases ws with
  | nil => rfl
  | cons s t => exact h s (List.mem_cons_self _ _)

theorem tail_ok (ws : List WriteStep) (h : ∀ s ∈ ws, s = WriteStep.ok) :
    ∀ s ∈ ws.tail, s = WriteStep.ok :=
  fun s hs => h s (List.mem_of_mem_tail hs)

theorem available_advance (p nd : String) (off k : Nat) (w w2 : World)
    (h : w2.fs.files nd = w.fs.files nd) :
    available ⟨p, nd, off + k⟩ w2 = (available ⟨p, nd, off⟩ w).drop k := by
  simp [available, h, Nat.add_comm]

/-- The read-back loop finishes within a fuel that exceeds the number of bytes
left to read, and leaves through `break` when no `Read` fails. -/
theorem readLoop_run (fuel : Nat) : ∀ (rs : List ReadStep) (f : Handle) (w : World),
    (available f w).length < fuel →
    ∃ r w2, readLoop fuel rs f w = some (r, w2) ∧
      ((∀ s ∈ rs, s.isFail = false) → r = none) := by
  induction fuel with
  | zero => intro rs f w h; omega
  | succ fuel ih =>
    intro rs f w hfuel
    simp only [readLoop]
    have hfs := fileRead_fs f bufSize (rs.headD .full) w
    rcases fileRead_cases f (rs.headD .full) w with ⟨e, hs, herr, _⟩ | ⟨hs, _, herr, hdata⟩ |
      ⟨hs, hpos, herr, hdata, hfile⟩
    · refine ⟨_, _, if_pos ?_, ?_⟩
      · rw [herr]; simp
      · intro hnf
        have := headD_not_fail rs hnf
        rw [hs] at this
        simp [ReadStep.isFail] at this
    · refine ⟨none, (fileRead f bufSize (rs.headD .full) w).world, ?_, fun _ => rfl⟩
      rw [if_neg (by rw [herr]; simp), if_pos (by rw [hdata]; rfl)]
    · have hk := readCount_pos (rs.headD .full) _ hpos
      have hk2 := readCount_le (rs.headD .full) bufSize _ hpos
      have hlen : (fileRead f bufSize (rs.headD .full) w).data.length ≠ 0 := by
        rw [hdata, List.length_take]; omega
      rw [if_neg (by rw [herr]; simp), if_neg hlen]
      have hav : (available (fileRead f bufSize (rs.headD .full) w).file
          (fileRead f bufSize (rs.headD .full) w).world).length < fuel := by
        rw [hfile, available_advance f.path f.node f.off _ w _ (by rw [hfs])]
        have : (⟨f.path, f.node, f.off⟩ : Handle) = f := rfl
        rw [this, List.length_drop]
        omega
      obtain ⟨r, w2, h1, h2⟩ := ih rs.tail _ _ hav
      exact ⟨r, w2, h1, fun hnf => h2 (tail_not_fail rs hnf)⟩

/-! ## The copy loop -/

theorem copyLoop_spec (fuel : Nat) : ∀ (rs : List ReadStep) (ws : List WriteStep)
    (fin fout : Handle) (w : World) (r : Option GoError) (w2 : World),
    copyLoop fuel rs ws fin fout w = some (r, w2) →
    (∀ q, q ≠ fout.node → w2.fs.files q = w.fs.files q) ∧ w2.fs.links = w.fs.links ∧
    r ≠ some .eof ∧
    ∃ evs, w2.trace = w.trace ++ evs ∧
      (∀ ev ∈ evs, ev.op = .read fin.path ∨ ∃ d, ev.op = .write fout.path d) ∧
      (∀ ev ∈ evs, ∀ e, ev.err = some e → e ≠ .eof → r = some e) := by
  induction fuel with
  | zero => intro rs ws fin fout w r w2 h; simp [copyLoop] at h
  | succ fuel ih =>
    intro rs ws fin fout w r w2 h
    simp only [copyLoop] at h
    have htr := fileRead_trace fin bufSize (rs.headD .full) w
    have hfs := fileRead_fs fin bufSize (rs.headD .full) w
    have hpath := fileRead_path fin bufSize (rs.headD .full) w
    generalize fileRead fin bufSize (rs.headD .full) w = rr at h htr hfs hpath
    split at h
    · rename_i hc
      simp only [Option.some.injEq, Prod.mk.injEq] at h
      obtain ⟨h1, h2⟩ := h
      subst h1 h2
      refine ⟨fun q _ => by rw [hfs], by rw [hfs], hc.2, _, htr, ?_, ?_⟩
      · intro ev hev
        rw [List.mem_singleton] at hev
        subst hev
        exact Or.inl rfl
      · intro ev hev e he _
        rw [List.mem_singleton] at hev
        subst hev
        exact he
    · rename_i hc
      have hrerr : ∀ e, rr.err = some e → e ≠ .eof → False := by
        intro e he hne
        apply hc
        rw [he]
        simp [hne]
      split at h
      · simp only [Option.some.injEq, Prod.mk.injEq] at h
        obtain ⟨h1, h2⟩ := h
        subst h1 h2
        refine ⟨fun q _ => by rw [hfs], by rw [hfs], by simp, _, htr, ?_, ?_⟩
        · intro ev hev
          rw [List.mem_singleton] at hev
          subst hev
          exact Or.inl rfl
        · intro ev hev e he hne
          rw [List.mem_singleton] at hev
          subst hev
          exact (hrerr e he hne).elim
      · have hwfs := fileWrite_fs_other fout rr.data (ws.headD .ok) rr.world
        have hwtr := fileWrite_trace fout rr.data (ws.headD .ok) rr.world
        have hwpath := fileWrite_path fout rr.data (ws.headD .ok) rr.world
        have hwnode := fileWrite_node fout rr.data (ws.headD .ok) rr.world
        have hwlinks := fileWrite_links fout rr.data (ws.headD .ok) rr.world
        have hwerr : (fileWrite fout rr.data (ws.headD .ok) rr.world).1 ≠ some .eof := by
          cases ws.headD .ok <;> simp [fileWrite]
        generalize fileWrite fout rr.data (ws.headD .ok) rr.world = wr
          at h hwfs hwtr hwpath hwnode hwlinks hwerr
        obtain ⟨werr, fout2, w3⟩ := wr
        simp only at hwfs hwtr hwpath hwnode hwlinks hwerr
        cases werr with
        | some e =>
          simp only [Option.some.injEq, Prod.mk.injEq] at h
          obtain ⟨h1, h2⟩ := h
          subst h1 h2
          refine ⟨fun q hq => by rw [hwfs q hq, hfs], by rw [hwlinks, hfs], hwerr,
            [⟨.read fin.path, rr.err⟩, ⟨.write fout.path rr.data, some e⟩], ?_, ?_, ?_⟩
          · rw [hwtr, htr]; simp
          · intro ev hev
            simp only [List.mem_cons, List.mem_singleton, List.not_mem_nil, or_false] at hev
            rcases hev with h6 | h6
            · subst h6; exact Or.inl rfl
            · subst h6; exact Or.inr ⟨_, rfl⟩
          · intro ev hev e2 he hne
            simp only [List.mem_cons, List.mem_singleton, List.not_mem_nil, or_false] at hev
            rcases hev with h6 | h6
            · subst h6; exact (hrerr e2 he hne).elim
            · subst h6; exact he
        | none =>
          simp only at h
          obtain ⟨h1, hl, h2, evs, h3, h4, h5⟩ := ih _ _ _ _ _ _ _ h
          rw [hwnode] at h1
          rw [hwpath] at h4
          rw [hpath] at h4
          refine ⟨fun q hq => by rw [h1 q hq, hwfs q hq, hfs], by rw [hl, hwlinks, hfs], h2,
            ⟨.read fin.path, rr.err⟩ :: ⟨.write fout.path rr.data, none⟩ :: evs, ?_, ?_, ?_⟩
          · rw [h3, hwtr, htr]; simp
          · intro ev hev
            simp only [List.mem_cons] at hev
            rcases hev with h6 | h6 | h6
            · subst h6; exact Or.inl rfl
            · subst h6; exact Or.inr ⟨_, rfl⟩
            · exact h4 ev h6
          · intro ev hev e2 he hne
            simp only [List.mem_cons] at hev
            rcases hev with h6 | h6 | h6
            · subst h6; exact (hrerr e2 he hne).elim
            · subst h6; simp at he
            · exact h5 ev h6 e2 he hne

theorem fileRead_world (f : Handle) (n : Nat) (s : ReadStep) (w : World) :
    (fileRead f n s w).world = w.log (.read f.path) (fileRead f n s w).err := by
  unfold fileRead
  split
  · rfl
  · split <;> rfl

theorem written_append (p : String) (xs ys : List Event) :
    written p (xs ++ ys) = written p xs ++ written p ys := by
  induction xs with
  | nil => rfl
  | cons x xs ih =>
    obtain ⟨op, err⟩ := x
    rw [List.cons_append]
    cases op <;> simp only [written, ih]
    split <;> simp

theorem written_reads (p q : String) (evs : List Event) (h : ∀ ev ∈ evs, ev.op = .read q) :
    written p evs = [] := by
  induction evs with
  | nil => rfl
  | cons x xs ih =>
    obtain ⟨op, err⟩ := x
    have hx : op = .read q := h ⟨op, err⟩ (List.mem_cons_self _ _)
    subst hx
    simp only [written]
    exact ih (fun ev hev => h ev (List.mem_cons_of_mem _ hev))

/-- The copy loop finishes within a fuel that exceeds the number of bytes left
in the source, whatever fails. -/
theorem copyLoop_total (fuel : Nat) : ∀ (rs : List ReadStep) (ws : List WriteStep)
    (fin fout : Handle) (w : World),
    (0 < (available fin w).length → fin.node ≠ fout.node) →
    (available fin w).length < fuel →
    ∃ res, copyLoop fuel rs ws fin fout w = some res := by
  induction fuel with
  | zero => intro rs ws fin fout w _ h; omega
  | succ fuel ih =>
    intro rs ws fin fout w halias hfuel
    simp only [copyLoop]
    have hfs := fileRead_fs fin bufSize (rs.headD .full) w
    rcases fileRead_cases fin (rs.headD .full) w with ⟨e, _, herr, _⟩ | ⟨_, _, herr, hdata⟩ |
      ⟨_, hpos, herr, hdata, hfile⟩
    · exact ⟨_, if_pos (by rw [herr]; simp)⟩
    · refine ⟨(none, (fileRead fin bufSize (rs.headD .full) w).world), ?_⟩
      rw [if_neg (by rw [herr]; simp), if_pos (by rw [hdata]; rfl)]
    · have hne := halias hpos
      have hk := readCount_pos (rs.headD .full) _ hpos
      have hk2 := readCount_le (rs.headD .full) bufSize _ hpos
      have hlen : (fileRead fin bufSize (rs.headD .full) w).data.length ≠ 0 := by
        rw [hdata, List.length_take]; omega
      rw [if_neg (by rw [herr]; simp), if_neg hlen]
      have hwfs := fileWrite_fs_other fout (fileRead fin bufSize (rs.headD .full) w).data
        (ws.headD .ok) (fileRead fin bufSize (rs.headD .full) w).world fin.node hne
      have hwnode := fileWrite_node fout (fileRead fin bufSize (rs.headD .full) w).data
        (ws.headD .ok) (fileRead fin bufSize (rs.headD .full) w).world
      generalize fileWrite fout (fileRead fin bufSize (rs.headD .full) w).data
        (ws.headD .ok) (fileRead fin bufSize (rs.headD .full) w).world = wr at hwfs hwnode
      obtain ⟨werr, fout2, w3⟩ := wr
      simp only at hwfs hwnode
      cases werr with
      | some e => exact ⟨_, rfl⟩
      | none =>
        simp only
        apply ih
        · intro _; rw [hfile, hwnode]; exact hne
        · rw [hfile, available_advance fin.path fin.node fin.off _ w _ (by rw [hwfs, hfs])]
          have : (⟨fin.path, fin.node, fin.off⟩ : Handle) = fin := rfl
          rw [this, List.length_drop]
          omega

/-- Without a failure the copy loop leaves through `break` after appending to
the destination everything the source holds from the reader's offset on. -/
theorem copyLoop_ok (fuel : Nat) : ∀ (rs : List ReadStep) (ws : List WriteStep)
    (fin fout : Handle) (w : World) (content acc : List Byte),
    (∀ s ∈ rs, s.isFail = false) → (∀ s ∈ ws, s = WriteStep.ok) →
    (content.drop fin.off ≠ [] → fin.node ≠ fout.node) →
    w.fs.files fin.node = some content → w.fs.files fout.node = some acc →
    fout.off = acc.length → content.length - fin.off < fuel →
    ∃ evs, copyLoop fuel rs ws fin fout w
        = some (none, ⟨w.fs.set fout.node (some (acc ++ content.drop fin.off)), w.trace ++ evs⟩) ∧
      written fout.path evs = content.drop fin.off := by
  induction fuel with
  | zero => intro rs ws fin fout w content acc _ _ _ _ _ _ h; omega
  | succ fuel ih =>
    intro rs ws fin fout w content acc hnf hok halias hin hout hoff hfuel
    have hav : available fin w = content.drop fin.off := by simp [available, hin]
    simp only [copyLoop]
    have hworld := fileRead_world fin bufSize (rs.headD .full) w
    rcases fileRead_cases fin (rs.headD .full) w with ⟨e, hs, _, _⟩ | ⟨_, hzero, herr, hdata⟩ |
      ⟨_, hpos, herr, hdata, hfile⟩
    · have := headD_not_fail rs hnf
      rw [hs] at this
      simp [ReadStep.isFail] at this
    · rw [if_neg (by rw [herr]; simp), if_pos (by rw [hdata]; rfl), hworld, herr]
      have hnil : content.drop fin.off = [] := by
        rw [← hav]; exact List.length_eq_zero.1 hzero
      refine ⟨[⟨.read fin.path, some .eof⟩], ?_, ?_⟩
      · rw [hnil, List.append_nil, FS.set_eq_self _ _ _ hout]
        rfl
      · rw [hnil]; rfl
    · have hne : fin.node ≠ fout.node := by
        apply halias
        rw [← hav]
        intro h0
        rw [h0] at hpos
        exact Nat.lt_irrefl _ hpos
      have hk := readCount_pos (rs.headD .full) _ hpos
      have hk2 := readCount_le (rs.headD .full) bufSize _ hpos
      have hlen : (fileRead fin bufSize (rs.headD .full) w).data.length ≠ 0 := by
        rw [hdata, List.length_take]; omega
      rw [if_neg (by rw [herr]; simp), if_neg hlen, headD_ok ws hok, hworld, herr, hdata, hfile]
      generalize hk3 : readCount (rs.headD .full) bufSize (available fin w).length = k at hk hk2
      rw [hav] at hk2 ⊢
      rw [List.length_drop] at hk2
      simp only [fileWrite, World.log]
      rw [hoff, FS.pwrite_end _ _ _ _ hout]
      obtain ⟨evs, h1, h2⟩ := ih rs.tail ws.tail ⟨fin.path, fin.node, fin.off + k⟩
        ⟨fout.path, fout.node, acc.length + (List.take k (List.drop fin.off content)).length⟩
        ⟨w.fs.set fout.node (some (acc ++ List.take k (List.drop fin.off content))),
          w.trace ++ [⟨.read fin.path, none⟩] ++
            [⟨.write fout.path (List.take k (List.drop fin.off content)), none⟩]⟩
        content (acc ++ List.take k (List.drop fin.off content))
        (tail_not_fail rs hnf) (tail_ok ws hok) (fun _ => hne)
        (by show (FS.set _ _ _).files fin.node = _; rw [FS.set_other _ _ _ _ hne]; exact hin)
        (FS.set_same _ _ _)
        (by simp) (by simp only; omega)
      dsimp only at h1 h2
      have hjoin : List.take k (List.drop fin.off content) ++ List.drop (fin.off + k) content
          = List.drop fin.off content := by
        rw [← List.drop_drop]
        exact List.take_append_drop _ _
      refine ⟨⟨.read fin.path, none⟩ ::
        ⟨.write fout.path (List.take k (List.drop fin.off content)), none⟩ :: evs, ?_, ?_⟩
      · rw [h1]
        simp only [FS.set_set, List.append_assoc, hjoin, List.singleton_append, List.cons_append,
          List.nil_append]
      · simp only [written, if_true, h2, hjoin]

/-! ## Single calls on an existing file -/

theorem osStat_present (p : String) (fault : Option Nat) (w : World) (c : List Byte)
    (h : w.fs.lookup p = some c) :
    osStat p fault w = (fault.map (GoError.pathError "stat" p),
      w.log (.stat p) (fault.map (GoError.pathError "stat" p))) := by
  simp only [osStat, h]

theorem osStat_absent (p : String) (fault : Option Nat) (w : World)
    (h : w.fs.lookup p = none) :
    osStat p fault w = (some (.pathError "stat" p (fault.getD ENOENT)),
      w.log (.stat p) (some (.pathError "stat" p (fault.getD ENOENT)))) := by
  simp only [osStat, h]

theorem osOpen_absent (p : String) (fault : Option Nat) (w : World)
    (h : w.fs.lookup p = none) :
    osOpen p fault w = (.error (.pathError "open" p (fault.getD ENOENT)),
      w.log (.openRead p) (some (.pathError "open" p (fault.getD ENOENT)))) := by
  simp only [osOpen, h]

theorem osOpen_ok (p : String) (w : World) (c : List Byte) (h : w.fs.lookup p = some c) :
    osOpen p none w = (.ok ⟨p, w.fs.resolve p, 0⟩, w.log (.openRead p) none) := by
  simp only [osOpen, h]

theorem osRemove_ok (p : String) (w : World) (h : w.fs.present p = true) :
    osRemove p none w = (none, ⟨w.fs.unlink p, w.trace ++ [⟨.remove p, none⟩]⟩) := by
  simp only [osRemove, h, Bool.true_eq_false, if_false]

/-- The entry under a path that resolves to an existing file. -/
theorem present_of_resolved (fs : FS) (p : String) (c : List Byte)
    (h : fs.files (fs.resolve p) = some c) : fs.present p = true := by
  unfold FS.present
  unfold FS.resolve at h
  cases hl : fs.links p with
  | some t => simp
  | none =>
    rw [hl] at h
    have h2 : fs.files p = some c := h
    simp [h2]

/-! ## A run without failures -/

theorem readLoop_ok (fuel : Nat) (rs : List ReadStep) (f : Handle) (w : World)
    (hnf : ∀ s ∈ rs, s.isFail = false) (hfuel : (available f w).length < fuel) :
    ∃ evs, readLoop fuel rs f w = some (none, ⟨w.fs, w.trace ++ evs⟩) ∧
      ∀ ev ∈ evs, ev.op = .read f.path := by
  obtain ⟨r, w2, h1, h2⟩ := readLoop_run fuel rs f w hfuel
  obtain ⟨h3, _, evs, h4, h5, _⟩ := readLoop_spec fuel rs f w r w2 h1
  refine ⟨evs, ?_, h5⟩
  rw [h1, h2 hnf]
  obtain ⟨fs2, tr2⟩ := w2
  simp only at h3 h4
  rw [h3, h4]

/-- A run in which nothing fails returns its record. `os.Create` has emptied
the file the output path resolves to, so what is copied is the content of the
input unless the two paths resolve to the same file; afterwards that file
holds the copy and the entry of the output path is gone. -/
theorem benchmarkIO_ok (n : Int) (env : Env) (w : World) (content : List Byte)
    (hnf : env.noFaults) (hin : w.fs.lookup (inputPath n) = some content) :
    ∃ evs, benchmarkIO n env w
        = some ⟨.ok (report n env),
            ⟨(w.fs.set (w.fs.resolve (outputPath n))
                (some (if w.fs.resolve (outputPath n) = w.fs.resolve (inputPath n) then []
                  else content))).unlink (outputPath n), w.trace ++ evs⟩⟩ ∧
      written (outputPath n) evs
        = (if w.fs.resolve (outputPath n) = w.fs.resolve (inputPath n) then [] else content) := by
  obtain ⟨h1, h2, h3, h4, h5, h6, h7, h8⟩ := hnf
  generalize hqi : w.fs.resolve (inputPath n) = qi
  generalize hqo : w.fs.resolve (outputPath n) = qo
  generalize hc3 : (if qo = qi then [] else content) = c3
  have hfin : w.fs.files qi = some content := by rw [← hqi]; exact hin
  have h3i : (w.fs.set qo (some [])).files qi = some c3 := by
    by_cases ha : qo = qi
    · rw [← hc3, if_pos ha, ← ha]; exact FS.set_same _ _ _
    · rw [← hc3, if_neg ha, FS.set_other _ _ _ _ (Ne.symm ha)]; exact hfin
  have halias : c3.drop 0 ≠ [] → qi ≠ qo := by
    intro hd he
    apply hd
    rw [← hc3, if_pos he.symm]
    rfl
  unfold benchmarkIO
  rw [osStat_present _ _ _ _ hin, h1]
  simp only [Option.map_none', isNotExist, Bool.false_eq_true, if_false]
  rw [h2, osOpen_ok _ _ content (by exact hin)]
  simp only [h3, osCreate, World.log, hqi, hqo]
  obtain ⟨evs1, hc1, hc2⟩ := copyLoop_ok
    (fileLen ⟨w.fs.set qo (some []),
      w.trace ++ [⟨.stat (inputPath n), none⟩] ++ [⟨.openRead (inputPath n), none⟩] ++
        [⟨.create (outputPath n), none⟩]⟩ qi + 1)
    env.copyReads env.copyWrites ⟨inputPath n, qi, 0⟩ ⟨outputPath n, qo, 0⟩
    ⟨w.fs.set qo (some []),
      w.trace ++ [⟨.stat (inputPath n), none⟩] ++ [⟨.openRead (inputPath n), none⟩] ++
        [⟨.create (outputPath n), none⟩]⟩
    c3 [] h4 h5 halias h3i (FS.set_same _ _ _) rfl
    (by simp [fileLen, h3i])
  rw [hc1]
  dsimp only
  have h4o : ((w.fs.set qo (some [])).set qo (some ([] ++ List.drop 0 c3))).lookup (outputPath n)
      = some c3 := by
    unfold FS.lookup
    rw [FS.set_resolve, FS.set_resolve, hqo, FS.set_same]
    rfl
  rw [h6, osOpen_ok _ _ c3 h4o]
  simp only [World.log, FS.set_set, FS.set_resolve, hqo, List.nil_append, List.drop_zero,
    List.append_assoc, List.singleton_append, List.cons_append] at hc2 h4o ⊢
  obtain ⟨evs2, hr1, hr2⟩ := readLoop_ok
    (fileLen ⟨w.fs.set qo (some c3),
      w.trace ++ ⟨.stat (inputPath n), none⟩ :: ⟨.openRead (inputPath n), none⟩ ::
        ⟨.create (outputPath n), none⟩ :: (evs1 ++ [⟨.openRead (outputPath n), none⟩])⟩
      qo + 1) env.backReads ⟨outputPath n, qo, 0⟩
    ⟨w.fs.set qo (some c3),
      w.trace ++ ⟨.stat (inputPath n), none⟩ :: ⟨.openRead (inputPath n), none⟩ ::
        ⟨.create (outputPath n), none⟩ :: (evs1 ++ [⟨.openRead (outputPath n), none⟩])⟩
    h7 (by simp [fileLen, available])
  rw [hr1]
  dsimp only
  have hpres : (w.fs.set qo (some c3)).present (outputPath n) = true :=
    present_of_resolved _ _ c3 h4o
  rw [h8, osRemove_ok _ _ hpres]
  simp only [fileClose, World.log, List.append_assoc,
    List.singleton_append, List.cons_append, List.nil_append]
  refine ⟨_, rfl, ?_⟩
  simp only [written, written_append, hc2, written_reads _ _ _ hr2, List.append_nil]

/-! ## Stretches of a run -/

theorem Stretch.log (out node : String) (w : World) (op : Op) (err : Option GoError)
    (h : op.target = none ∨ op.target = some out) :
    Stretch out node w (w.log op err) [⟨op, err⟩] := by
  refine ⟨rfl, fun _ _ => rfl, fun _ _ _ => rfl, ?_⟩
  intro ev hev
  rw [List.mem_singleton] at hev
  subst hev
  exact h

theorem Stretch.trans {out node : String} {w w1 w2 : World} {evs1 evs2 : List Event}
    (h1 : Stretch out node w w1 evs1) (h2 : Stretch out node w1 w2 evs2) :
    Stretch out node w w2 (evs1 ++ evs2) := by
  obtain ⟨a1, l1, b1, c1⟩ := h1
  obtain ⟨a2, l2, b2, c2⟩ := h2
  refine ⟨by rw [a2, a1, List.append_assoc], fun q hq => by rw [l2 q hq, l1 q hq],
    fun q hq hn => by rw [b2 q hq hn, b1 q hq hn], ?_⟩
  intro ev hev
  rcases List.mem_append.1 hev with h | h
  · exact c1 ev h
  · exact c2 ev h

theorem Stretch.close {out node : String} {w w1 : World} {evs : List Event} (f : Handle)
    (h : Stretch out node w w1 evs) :
    Stretch out node w (fileClose f w1) (evs ++ [⟨.close f.path, none⟩]) :=
  h.trans (Stretch.log out node w1 _ _ (Or.inl rfl))

theorem quiet_single (op : Op) (err : Option GoError)
    (h : op.isOpenReadWrite = true → ∀ e, err = some e → e = .eof) : Quiet [⟨op, err⟩] := by
  intro ev hev
  rw [List.mem_singleton] at hev
  subst hev
  exact h

theorem quiet_reported {evs : List Event} (h : Quiet evs) (ret : Except GoError BenchmarkResult) :
    Reported ret evs :=
  fun ev hev ho e he hne => (hne (h ev hev ho e he)).elim

theorem reported_after_quiet {ret : Except GoError BenchmarkResult} {evs1 evs2 : List Event}
    (h1 : Quiet evs1) (h2 : Reported ret evs2) : Reported ret (evs1 ++ evs2) := by
  intro ev hev
  rcases List.mem_append.1 hev with h | h
  · exact quiet_reported h1 ret ev h
  · exact h2 ev h

theorem reported_single (op : Op) (e : GoError) : Reported (.error e) [⟨op, some e⟩] := by
  intro ev hev _ e2 he _
  rw [List.mem_singleton] at hev
  subst hev
  simp only [Option.some.injEq] at he
  rw [he]

/-- A sound rest of a run after a quiet stretch is a sound run. -/
theorem peel {out node : String} {w w1 : World} {evs0 : List Event} (o : Option Run)
    (hS : Stretch out node w w1 evs0) (hQ : Quiet evs0)
    (h : ∃ run, o = some run ∧ Run.sound out node w1 run) :
    ∃ run, o = some run ∧ Run.sound out node w run := by
  obtain ⟨run, h1, evs, h2, h3⟩ := h
  exact ⟨run, h1, evs0 ++ evs, hS.trans h2, reported_after_quiet hQ h3⟩

/-- A run that returns `e` right after the call that failed with `e`. -/
theorem Run.sound_fail (out node : String) (w : World) (op : Op) (e : GoError)
    (h : op.target = none ∨ op.target = some out) :
    Run.sound out node w ⟨.error e, w.log op (some e)⟩ :=
  ⟨_, Stretch.log out node w op (some e) h, reported_single op e⟩

theorem reported_then_quiet {ret : Except GoError BenchmarkResult} {evs1 evs2 : List Event}
    (h1 : Reported ret evs1) (h2 : Quiet evs2) : Reported ret (evs1 ++ evs2) := by
  intro ev hev
  rcases List.mem_append.1 hev with h | h
  · exact h1 ev h
  · exact quiet_reported h2 ret ev h

/-- Closing a file keeps a run sound. -/
theorem Run.sound_close {out node : String} {w w1 : World}
    {ret : Except GoError BenchmarkResult} (f : Handle)
    (h : Run.sound out node w ⟨ret, w1⟩) : Run.sound out node w ⟨ret, fileClose f w1⟩ := by
  obtain ⟨evs, h1, h2⟩ := h
  exact ⟨_, h1.close f, reported_then_quiet h2 (quiet_single _ _ (fun h => by simp [Op.isOpenReadWrite] at h))⟩

/-! ## Any run -/

theorem osStat_eq (p : String) (fault : Option Nat) (w : World) :
    osStat p fault w = ((osStat p fault w).1, w.log (.stat p) (osStat p fault w).1) := by
  unfold osStat
  split <;> rfl

theorem osOpen_cases (p : String) (fault : Option Nat) (w : World) :
    (∃ e, osOpen p fault w = (.error e, w.log (.openRead p) (some e))) ∨
    osOpen p fault w = (.ok ⟨p, w.fs.resolve p, 0⟩, w.log (.openRead p) none) := by
  unfold osOpen
  split
  · exact Or.inl ⟨_, rfl⟩
  · split
    · exact Or.inl ⟨_, rfl⟩
    · exact Or.inr rfl

theorem osCreate_cases (p : String) (fault : Option Nat) (w : World) :
    (∃ e, osCreate p fault w = (.error e, w.log (.create p) (some e))) ∨
    osCreate p fault w
      = (.ok ⟨p, w.fs.resolve p, 0⟩,
          ⟨w.fs.set (w.fs.resolve p) (some []), w.trace ++ [⟨.create p, none⟩]⟩) := by
  unfold osCreate
  split
  · exact Or.inl ⟨_, rfl⟩
  · exact Or.inr rfl

theorem Stretch.create (p : String) (w : World) :
    Stretch p (w.fs.resolve p) w
      ⟨w.fs.set (w.fs.resolve p) (some []), w.trace ++ [⟨.create p, none⟩]⟩
      [⟨.create p, none⟩] := by
  refine ⟨rfl, fun _ _ => rfl, fun q _ hq => FS.set_other _ _ _ _ hq, ?_⟩
  intro ev hev
  rw [List.mem_singleton] at hev
  subst hev
  exact Or.inr rfl

theorem Stretch.remove (p node : String) (fault : Option Nat) (w : World) :
    Stretch p node w (osRemove p fault w).2 [⟨.remove p, (osRemove p fault w).1⟩] := by
  have ht : ∀ ev ∈ [(⟨.remove p, (osRemove p fault w).1⟩ : Event)],
      ev.op.target = none ∨ ev.op.target = some p := by
    intro ev hev
    rw [List.mem_singleton] at hev
    subst hev
    exact Or.inr rfl
  refine ⟨?_, ?_, ?_, ht⟩
  · unfold osRemove
    split
    · rfl
    · split <;> rfl
  · intro q hq
    unfold osRemove
    split
    · rfl
    · split
      · rfl
      · exact FS.unlink_links_other _ _ _ hq
  · intro q hq _
    unfold osRemove
    split
    · rfl
    · split
      · rfl
      · exact FS.unlink_files_other _ _ _ hq

theorem osRemove_absent (p : String) (w : World) :
    (osRemove p none w).2.fs.files p = none ∧ (osRemove p none w).2.fs.links p = none := by
  unfold osRemove
  split
  · rename_i h
    unfold FS.present at h
    simp only [Bool.or_eq_false_iff] at h
    constructor
    · have := h.2
      cases hf : w.fs.files p with
      | none => exact hf
      | some c => rw [hf] at this; cases this
    · have := h.1
      cases hl : w.fs.links p with
      | none => exact hl
      | some c => rw [hl] at this; cases this
  · exact ⟨FS.unlink_files _ _, FS.unlink_links _ _⟩

theorem not_openReadWrite_quiet (op : Op) (err : Option GoError)
    (h : op.isOpenReadWrite = false) : Quiet [⟨op, err⟩] :=
  quiet_single op err (fun h2 => by rw [h] at h2; cases h2)

theorem no_error_quiet (op : Op) : Quiet [⟨op, none⟩] :=
  quiet_single op none (fun _ e he => by cases he)

/-- What the copy loop does to the world, whatever fails. When both handles
are on the same file, `os.Create` has just emptied it. -/
theorem copyLoop_stretch (rs : List ReadStep) (ws : List WriteStep) (fin fout : Handle)
    (w : World) (hoff : fin.off = 0)
    (halias : fin.node = fout.node → w.fs.files fout.node = some []) :
    ∃ r w2 evs, copyLoop (fileLen w fin.node + 1) rs ws fin fout w = some (r, w2) ∧
      Stretch fout.path fout.node w w2 evs ∧ (r = none → Quiet evs) ∧
      ∀ e, r = some e → ∀ ret : Except GoError BenchmarkResult, ret = .error e →
        Reported ret evs := by
  obtain ⟨⟨r, w2⟩, h⟩ := copyLoop_total (fileLen w fin.node + 1) rs ws fin fout w
    (by
      intro hpos he
      have h0 := halias he
      rw [← he] at h0
      simp [available, h0] at hpos)
    (by simp [available, fileLen, hoff])
  obtain ⟨h1, hl, _, evs, h3, h4, h5⟩ := copyLoop_spec _ _ _ _ _ _ _ _ h
  refine ⟨r, w2, evs, h, ⟨h3, fun q _ => by rw [hl], fun q _ hq => h1 q hq, ?_⟩, ?_, ?_⟩
  · intro ev hev
    rcases h4 ev hev with h6 | ⟨d, h6⟩
    · rw [h6]; exact Or.inl rfl
    · rw [h6]; exact Or.inr rfl
  · intro hr ev hev _ e he
    by_contra hn
    have := h5 ev hev e he hn
    rw [hr] at this
    cases this
  · intro e hr ret hret ev hev _ e2 he hn
    have := h5 ev hev e2 he hn
    rw [hr] at this
    cases this
    exact hret

/-- What the read-back loop does to the world, whatever fails. -/
theorem readLoop_stretch (rs : List ReadStep) (f : Handle) (out node : String) (w : World)
    (hoff : f.off = 0) :
    ∃ r w2 evs, readLoop (fileLen w f.node + 1) rs f w = some (r, w2) ∧
      Stretch out node w w2 evs ∧ (r = none → Quiet evs) ∧
      ∀ e, r = some e → ∀ ret : Except GoError BenchmarkResult, ret = .error e →
        Reported ret evs := by
  obtain ⟨r, w2, h, _⟩ := readLoop_run (fileLen w f.node + 1) rs f w
    (by simp [available, fileLen, hoff])
  obtain ⟨h1, _, evs, h3, h4, h5⟩ := readLoop_spec _ _ _ _ _ _ h
  refine ⟨r, w2, evs, h, ⟨h3, fun q _ => by rw [h1], fun q _ _ => by rw [h1], ?_⟩, ?_, ?_⟩
  · intro ev hev
    rw [h4 ev hev]; exact Or.inl rfl
  · intro hr ev hev _ e he
    by_contra hn
    have := h5 ev hev e he hn
    rw [hr] at this
    cases this
  · intro e hr ret hret ev hev _ e2 he hn
    have := h5 ev hev e2 he hn
    rw [hr] at this
    cases this
    exact hret

/-- Every run of benchmarkIO returns; it changes no directory entry other
than that of its output path and the file that path resolves to, and it
returns the failure of any call that opens, reads or writes a file. -/
theorem benchmarkIO_sound (n : Int) (env : Env) (w : World) :
    ∃ run, benchmarkIO n env w = some run ∧
      Run.sound (outputPath n) (w.fs.resolve (outputPath n)) w run := by
  generalize hnode : w.fs.resolve (outputPath n) = node
  unfold benchmarkIO
  rw [osStat_eq]
  generalize (osStat (inputPath n) env.statFault w).1 = serr
  dsimp only
  have hS1 := Stretch.log (outputPath n) node w (.stat (inputPath n)) serr (Or.inl rfl)
  have hQ1 := not_openReadWrite_quiet (.stat (inputPath n)) serr rfl
  by_cases hnx : isNotExist serr = true
  · rw [if_pos hnx]
    exact ⟨_, rfl, _, hS1, quiet_reported hQ1 _⟩
  rw [if_neg hnx]
  refine peel _ hS1 hQ1 ?_
  have hfs1 : (w.log (.stat (inputPath n)) serr).fs = w.fs := rfl
  generalize w.log (.stat (inputPath n)) serr = w1 at hfs1 ⊢
  rcases osOpen_cases (inputPath n) env.openInFault w1 with ⟨e, ho⟩ | ho
  · rw [ho]
    exact ⟨_, rfl, Run.sound_fail _ _ _ _ _ (Or.inl rfl)⟩
  rw [ho]
  dsimp only
  refine peel _ (Stretch.log (outputPath n) node w1 (.openRead (inputPath n)) none (Or.inl rfl))
    (no_error_quiet _) ?_
  have hfs2 : (w1.log (.openRead (inputPath n)) none).fs = w.fs := hfs1
  generalize w1.log (.openRead (inputPath n)) none = w2 at hfs2 ⊢
  have hnode2 : w2.fs.resolve (outputPath n) = node := by rw [hfs2]; exact hnode
  rcases osCreate_cases (outputPath n) env.createFault w2 with ⟨e, hc⟩ | hc
  · rw [hc]
    exact ⟨_, rfl, Run.sound_close _ (Run.sound_fail _ _ _ _ _ (Or.inr rfl))⟩
  rw [hc, hnode2]
  dsimp only
  have hScr := Stretch.create (outputPath n) w2
  rw [hnode2] at hScr
  refine peel _ hScr (no_error_quiet _) ?_
  have hempty : (⟨w2.fs.set node (some []),
      w2.trace ++ [⟨.create (outputPath n), none⟩]⟩ : World).fs.files node = some [] :=
    FS.set_same _ _ _
  generalize (⟨w2.fs.set node (some []),
    w2.trace ++ [⟨.create (outputPath n), none⟩]⟩ : World) = w3 at hempty ⊢
  obtain ⟨r, w4, evs, hcl, hS4, hQ4, hR4⟩ := copyLoop_stretch env.copyReads env.copyWrites
    ⟨inputPath n, w1.fs.resolve (inputPath n), 0⟩ ⟨outputPath n, node, 0⟩ w3 rfl
    (fun _ => hempty)
  rw [hcl]
  cases r with
  | some e =>
    exact ⟨_, rfl, Run.sound_close _ (Run.sound_close _ ⟨evs, hS4, hR4 e rfl _ rfl⟩)⟩
  | none =>
    dsimp only
    refine peel _ hS4 (hQ4 rfl) ?_
    rcases osOpen_cases (outputPath n) env.openOutFault w4 with ⟨e, ho2⟩ | ho2
    · rw [ho2]
      exact ⟨_, rfl, Run.sound_close _ (Run.sound_close _
        (Run.sound_fail _ _ _ _ _ (Or.inl rfl)))⟩
    rw [ho2]
    dsimp only
    refine peel _ (Stretch.log (outputPath n) node w4 (.openRead (outputPath n)) none
      (Or.inl rfl)) (no_error_quiet _) ?_
    generalize hw5 : w4.log (.openRead (outputPath n)) none = w5
    obtain ⟨r, w6, evs6, hrl, hS6, hQ6, hR6⟩ := readLoop_stretch env.backReads
      ⟨outputPath n, w4.fs.resolve (outputPath n), 0⟩ (outputPath n) node w5 rfl
    rw [hrl]
    cases r with
    | some e =>
      exact ⟨_, rfl, Run.sound_close _ (Run.sound_close _ (Run.sound_close _
        ⟨evs6, hS6, hR6 e rfl _ rfl⟩))⟩
    | none =>
      dsimp only
      refine peel _ hS6 (hQ6 rfl) ?_
      refine ⟨_, rfl, Run.sound_close _ (Run.sound_close _ (Run.sound_close _
        ⟨_, Stretch.remove (outputPath n) node env.removeFault w6, quiet_reported
          (not_openReadWrite_quiet (.remove (outputPath n)) _ rfl) _⟩))⟩

/-! ## The copy loop, chunk by chunk -/

theorem benchmarkIO_ret_ok (n : Int) (env : Env) (w : World) (run : Run) (r : BenchmarkResult)
    (h : benchmarkIO n env w = some run) (hr : run.ret = .ok r) :
    r = report n env ∧
      (env.removeFault = none → run.world.fs.files (outputPath n) = none ∧
        run.world.fs.links (outputPath n) = none) := by
  unfold benchmarkIO at h
  dsimp only at h
  repeat' split at h
  all_goals first
    | (simp only [Option.some.injEq] at h; subst h; simp only at hr; cases hr; done)
    | (cases h; done)
    | skip
  simp only [Option.some.injEq] at h
  subst h
  simp only [Except.ok.injEq] at hr
  subst hr
  refine ⟨rfl, fun hf => ?_⟩
  rw [hf]
  exact osRemove_absent _ _

theorem benchmarkIO_ret_removeFault (n : Int) (env : Env) (w : World) (f : Option Nat) :
    ( benchmarkIO n { env with removeFault := f } w).map Run.ret
      = ( benchmarkIO n env w).map Run.ret := by
  unfold benchmarkIO
  dsimp only
  repeat' split
  all_goals rfl

/-! ## The command line -/

theorem Atoi_not_decimal (s : String) (h : isDecimalInteger s = false) :
    Atoi s = .error (.numError "Atoi" s "invalid syntax") := by
  unfold Atoi
  unfold isDecimalInteger at h
  generalize splitSign s.data = p at h
  obtain ⟨neg, ds⟩ := p
  have key : ds = [] ∨ ds.all Char.isDigit = false := by
    cases ds with
    | nil => exact Or.inl rfl
    | cons c t => right; simpa using h
  simp only [if_pos key]

theorem append_ne_empty (a b : String) (h : a ≠ "") : a ++ b ≠ "" := by
  intro h2
  apply h
  have h3 := congrArg String.data h2
  rw [String.data_append] at h3
  have h4 : a.data = [] := (List.append_eq_nil.1 h3).1
  cases a
  simp only at h4
  subst h4
  rfl

/-- What `main` does once the argument is the number `n` and benchmarkIO
has returned. -/
theorem main_of_run (marshal : BenchmarkResult → Except GoError String)
    (errText : GoError → String) (prog arg : String) (n : Int) (env : Env) (w : World)
    (run : Run) (ha : Atoi arg = .ok n) (hb : benchmarkIO n env w = some run) :
    main marshal errText prog [arg] env w = some
      (match run.ret with
       | .error e => ⟨1, "", "Benchmark failed: " ++ errText e ++ "\n", run.world⟩
       | .ok r =>
         match marshal r with
         | .error e => ⟨1, "", "JSON encoding failed: " ++ errText e ++ "\n", run.world⟩
         | .ok js => ⟨0, js ++ "\n", "", run.world⟩) := by
  obtain ⟨ret, w2⟩ := run
  simp only [main, List.length_cons, List.length_nil, List.headD_cons, ha, hb]
  cases ret with
  | error e => simp
  | ok r =>
    simp only
    cases marshal r <;> simp

/-! ## The claims -/

/-- C2. For every `N` whose input file exists, with any content, and every
run in which no call fails, benchmarkIO `N` returns a result; its
`FileSizeMB` is `N`, its `Language` is "golang", and when the monotonic clock
does not run backwards `WriteTime` and `ReadTime` are not negative. -/
theorem benchmarkIO_returns_result (n : Int) (env : Env) (w : World) (content : List Byte)
    (hin : w.fs.lookup (inputPath n) = some content) (hnf : env.noFaults) :
    ∃ r w2, benchmarkIO n env w = some ⟨.ok r, w2⟩ ∧ r.FileSizeMB = n ∧ r.Language = "golang" ∧
      (env.t0 ≤ env.t1 → 0 ≤ r.WriteTime) ∧ (env.t2 ≤ env.t3 → 0 ≤ r.ReadTime) := by
  obtain ⟨evs, h, _⟩ := benchmarkIO_ok n env w content hnf hin
  have hsec : ∀ a b : Int, a ≤ b → 0 ≤ seconds (since a b) := by
    intro a b hab
    unfold seconds since
    apply div_nonneg
    · exact_mod_cast sub_nonneg.2 hab
    · norm_num
  exact ⟨_, _, h, rfl, rfl, hsec _ _, hsec _ _⟩

/-- Witness of C2: size 1, an input of three bytes, nothing fails. -/
theorem benchmarkIO_returns_result_witness :
    sampleWorld.fs.lookup (inputPath 1) = some [1, 2, 3] ∧ sampleEnv.noFaults ∧
    ∃ r w2, benchmarkIO 1 sampleEnv sampleWorld = some ⟨.ok r, w2⟩ ∧ r.FileSizeMB = 1 ∧
      r.Language = "golang" ∧
      (sampleEnv.t0 ≤ sampleEnv.t1 → 0 ≤ r.WriteTime) ∧
      (sampleEnv.t2 ≤ sampleEnv.t3 → 0 ≤ r.ReadTime) :=
  ⟨by decide, by decide,
    benchmarkIO_returns_result 1 sampleEnv sampleWorld [1, 2, 3] (by decide) (by decide)⟩

/-- C3. In every result benchmarkIO `N` returns, whatever the files hold and
whatever was transferred, each throughput is the requested size `N` divided
by the time of its phase; so, over exact arithmetic, throughput times time is
`N` whenever the time is positive. -/
theorem throughput_is_size_over_time (n : Int) (env : Env) (w : World) (run : Run)
    (r : BenchmarkResult) (h : benchmarkIO n env w = some run) (hr : run.ret = .ok r) :
    r.ReadThroughputMBS = fdiv n r.ReadTime ∧ r.WriteThroughputMBS = fdiv n r.WriteTime ∧
    (0 < r.ReadTime → ∃ q, r.ReadThroughputMBS = .finite q ∧ q * r.ReadTime = n) ∧
    (0 < r.WriteTime → ∃ q, r.WriteThroughputMBS = .finite q ∧ q * r.WriteTime = n) := by
  obtain ⟨h1, _⟩ := benchmarkIO_ret_ok n env w run r h hr
  subst h1
  have key : ∀ t : ℚ, 0 < t → ∃ q, fdiv n t = .finite q ∧ q * t = n := by
    intro t ht
    refine ⟨n / t, ?_, div_mul_cancel₀ _ (ne_of_gt ht)⟩
    unfold fdiv
    rw [if_neg (ne_of_gt ht)]
  exact ⟨rfl, rfl, key _, key _⟩

/-- Witness of C3: the run of the sample world, whose read phase lasts 3 ns. -/
theorem throughput_is_size_over_time_witness :
    ∃ run r, benchmarkIO 1 sampleEnv sampleWorld = some run ∧ run.ret = .ok r ∧
      r.ReadTime = 3 / 1000000000 ∧
      r.ReadThroughputMBS = fdiv 1 r.ReadTime ∧ r.WriteThroughputMBS = fdiv 1 r.WriteTime ∧
      (0 < r.ReadTime → ∃ q, r.ReadThroughputMBS = .finite q ∧ q * r.ReadTime = 1) ∧
      (0 < r.WriteTime → ∃ q, r.WriteThroughputMBS = .finite q ∧ q * r.WriteTime = 1) :=
  ⟨_, _, rfl, rfl, by norm_num [report, seconds, since, sampleEnv],
    by simpa using throughput_is_size_over_time 1 sampleEnv sampleWorld _ _ rfl rfl⟩

/-- C4 as stated fails: in a world without files, where `os.Stat` and
`os.Open` of the input path fail with errno 20 (ENOTDIR), the `Stat` error is
not `IsNotExist`, so benchmarkIO `1` goes on to `os.Open` and returns its
error, not "test file ... not found". -/
theorem missing_input_counterexample :
    emptyWorld.fs.lookup (inputPath 1) = none ∧
    ∃ run, benchmarkIO 1 notDirEnv emptyWorld = some run ∧
      run.ret = .error (.pathError "open" "../data/test_1mb.txt" 20) ∧
      run.ret ≠ .error (.errorf "test file ../data/test_1mb.txt not found") ∧
      ⟨.openRead (inputPath 1), some (.pathError "open" (inputPath 1) 20)⟩ ∈ run.world.trace := by
  refine ⟨rfl, _, rfl, rfl, ?_, ?_⟩
  · intro h
    cases h
  · decide

/-- C4, amended. When the input path of size `N` leads to no file,
benchmarkIO `N` returns an error and no result and leaves the files as they
were: no call has succeeded, so no file was opened, created or truncated.
When `os.Stat` fails with ENOENT the error is "test file
../data/test_<N>mb.txt not found" and the `Stat` is the only call issued;
when it fails otherwise, the error is that of the `os.Open` of the input path,
the only other call issued. In both cases `main`, called with an argument that
reads as `N`, exits with code 1 and prints nothing on standard output. -/
theorem missing_input_is_reported (n : Int) (env : Env) (w : World)
    (hin : w.fs.lookup (inputPath n) = none) :
    ∃ e evs, benchmarkIO n env w = some ⟨.error e, ⟨w.fs, w.trace ++ evs⟩⟩ ∧
      (env.statFault.getD ENOENT = ENOENT →
        e = .errorf ("test file " ++ inputPath n ++ " not found") ∧
        evs = [⟨.stat (inputPath n), some (.pathError "stat" (inputPath n) ENOENT)⟩]) ∧
      (env.statFault.getD ENOENT ≠ ENOENT →
        e = .pathError "open" (inputPath n) (env.openInFault.getD ENOENT) ∧
        evs = [⟨.stat (inputPath n),
                some (.pathError "stat" (inputPath n) (env.statFault.getD ENOENT))⟩,
               ⟨.openRead (inputPath n), some e⟩]) ∧
      ∀ (marshal : BenchmarkResult → Except GoError String) (errText : GoError → String)
        (prog arg : String), Atoi arg = .ok n →
        main marshal errText prog [arg] env w = some
          ⟨1, "", "Benchmark failed: " ++ errText e ++ "\n", ⟨w.fs, w.trace ++ evs⟩⟩ := by
  by_cases hs : env.statFault.getD ENOENT = ENOENT
  · have hb : benchmarkIO n env w = some
        ⟨.error (.errorf ("test file " ++ inputPath n ++ " not found")),
          ⟨w.fs, w.trace ++
            [⟨.stat (inputPath n), some (.pathError "stat" (inputPath n) ENOENT)⟩]⟩⟩ := by
      unfold benchmarkIO
      rw [osStat_absent _ _ _ hin, hs]
      rfl
    refine ⟨_, _, hb, fun _ => ⟨rfl, rfl⟩, fun h => (h hs).elim,
      fun marshal errText prog arg ha => ?_⟩
    rw [main_of_run marshal errText prog arg n env w _ ha hb]
  · have hb : benchmarkIO n env w = some
        ⟨.error (.pathError "open" (inputPath n) (env.openInFault.getD ENOENT)),
          ⟨w.fs, w.trace ++
            [⟨.stat (inputPath n),
                some (.pathError "stat" (inputPath n) (env.statFault.getD ENOENT))⟩,
             ⟨.openRead (inputPath n),
                some (.pathError "open" (inputPath n) (env.openInFault.getD ENOENT))⟩]⟩⟩ := by
      unfold benchmarkIO
      rw [osStat_absent _ _ _ hin]
      have hne : isNotExist
          (some (.pathError "stat" (inputPath n) (env.statFault.getD ENOENT))) = false := by
        simp [isNotExist, hs]
      simp only [hne, Bool.false_eq_true, if_false]
      rw [osOpen_absent _ _ _ (by exact hin)]
      simp [World.log]
    refine ⟨_, _, hb, fun h => (hs h).elim, fun _ => ⟨rfl, rfl⟩,
      fun marshal errText prog arg ha => ?_⟩
    rw [main_of_run marshal errText prog arg n env w _ ha hb]

/-- Witness of C4 amended: size 1 in a world without files, `Stat` failing
with ENOENT. -/
theorem missing_input_is_reported_witness :
    emptyWorld.fs.lookup (inputPath 1) = none ∧
    benchmarkIO 1 sampleEnv emptyWorld = some
      ⟨.error (.errorf "test file ../data/test_1mb.txt not found"),
        ⟨emptyWorld.fs,
          [⟨.stat "../data/test_1mb.txt", some (.pathError "stat" "../data/test_1mb.txt" 2)⟩]⟩⟩ ∧
    ∃ e evs, benchmarkIO 1 sampleEnv emptyWorld
        = some ⟨.error e, ⟨emptyWorld.fs, emptyWorld.trace ++ evs⟩⟩ ∧
      e = .errorf ("test file " ++ inputPath 1 ++ " not found") ∧
      (main sampleMarshal sampleErrText "prog" ["1"] sampleEnv emptyWorld).map
        (fun ex => (ex.code, ex.stdout, ex.stderr)) = some (1, "", "Benchmark failed: error\n") := by
  refine ⟨rfl, rfl, ?_⟩
  obtain ⟨e, evs, h1, h2, _, h4⟩ := missing_input_is_reported 1 sampleEnv emptyWorld rfl
  refine ⟨e, evs, h1, (h2 rfl).1, ?_⟩
  rw [h4 sampleMarshal sampleErrText "prog" "1" rfl]
  rfl

/-- C5. When `main` is started with no argument, with more than one, or with
a single argument that is not a decimal integer, it exits with code 1, writes
nothing to standard output and a message to standard error, and leaves the
world as it was: no call to the operating system has been issued, so
benchmarkIO (which starts with a `Stat`) has not run. -/
theorem bad_arguments_exit_one (marshal : BenchmarkResult → Except GoError String)
    (errText : GoError → String) (prog : String) (argv : List String) (env : Env) (w : World)
    (h : argv.length ≠ 1 ∨ ∃ a, argv = [a] ∧ isDecimalInteger a = false) :
    ∃ msg, main marshal errText prog argv env w = some ⟨1, "", msg, w⟩ ∧ msg ≠ "" := by
  rcases h with h | ⟨a, rfl, ha⟩
  · refine ⟨"Usage: " ++ prog ++ " <file_size_mb>\n", ?_,
      append_ne_empty _ _ (append_ne_empty _ _ (by decide))⟩
    unfold main
    rw [if_pos (by simpa using h)]
  · refine ⟨"Invalid file size: " ++ errText (.numError "Atoi" a "invalid syntax") ++ "\n", ?_,
      append_ne_empty _ _ (append_ne_empty _ _ (by decide))⟩
    unfold main
    rw [if_neg (by simp)]
    simp only [List.headD_cons, Atoi_not_decimal a ha]

/-- Witness of C5: the argument "abc", and no argument at all. -/
theorem bad_arguments_exit_one_witness :
    isDecimalInteger "abc" = false ∧
    (∃ msg, main sampleMarshal sampleErrText "prog" ["abc"] sampleEnv sampleWorld
      = some ⟨1, "", msg, sampleWorld⟩ ∧ msg ≠ "") ∧
    (∃ msg, main sampleMarshal sampleErrText "prog" [] sampleEnv sampleWorld
      = some ⟨1, "", msg, sampleWorld⟩ ∧ msg ≠ "") :=
  ⟨by decide,
    bad_arguments_exit_one sampleMarshal sampleErrText "prog" ["abc"] sampleEnv sampleWorld
      (Or.inr ⟨"abc", rfl, by decide⟩),
    bad_arguments_exit_one sampleMarshal sampleErrText "prog" [] sampleEnv sampleWorld
      (Or.inl (by decide))⟩

/-- C6 as stated fails: with an input of three bytes and an `os.Remove` that
fails (errno 1), benchmarkIO `1` returns a result and the output file is
still there, holding the copy. -/
theorem cleanup_invariant_counterexample :
    ∃ r w2, benchmarkIO 1 removeFailsEnv sampleWorld = some ⟨.ok r, w2⟩ ∧
      w2.fs.files (outputPath 1) = some [1, 2, 3] ∧
      w2.fs.lookup (outputPath 1) = some [1, 2, 3] :=
  ⟨_, _, rfl, by decide, by decide⟩

/-- C6, amended. Whenever benchmarkIO `N` returns a result in a run in which
`os.Remove` is not made to fail, the output file does not exist afterwards,
whatever the files were before: there is no entry of that name, neither file
nor link, and the path leads to no content. -/
theorem output_absent_after_removal (n : Int) (env : Env) (w : World) (run : Run)
    (r : BenchmarkResult) (h : benchmarkIO n env w = some run) (hr : run.ret = .ok r)
    (hrm : env.removeFault = none) :
    run.world.fs.files (outputPath n) = none ∧ run.world.fs.links (outputPath n) = none ∧
      run.world.fs.present (outputPath n) = false ∧
      run.world.fs.lookup (outputPath n) = none := by
  obtain ⟨h1, h2⟩ := (benchmarkIO_ret_ok n env w run r h hr).2 hrm
  refine ⟨h1, h2, ?_, ?_⟩
  · simp [FS.present, h1, h2]
  · simp [FS.lookup, FS.resolve, h1, h2]

/-- Witness of C6 amended: a run over a stale output file, in which nothing
fails. -/
theorem output_absent_after_removal_witness :
    ∃ run r, benchmarkIO 1 sampleEnv staleWorld = some run ∧ run.ret = .ok r ∧
      sampleEnv.removeFault = none ∧ staleWorld.fs.lookup (outputPath 1) = some [9, 9, 9, 9, 9] ∧
      run.world.fs.files (outputPath 1) = none ∧ run.world.fs.links (outputPath 1) = none ∧
      run.world.fs.present (outputPath 1) = false ∧
      run.world.fs.lookup (outputPath 1) = none :=
  ⟨_, _, rfl, rfl, rfl, by decide,
    output_absent_after_removal 1 sampleEnv staleWorld _ _ rfl rfl rfl⟩

/-- C7 as stated fails: in a run in which `os.Remove` fails with errno 1 and
nothing else does, benchmarkIO `1` returns a result, not the error, and
`main` exits with code 0. -/
theorem remove_failure_counterexample :
    ∃ run r, benchmarkIO 1 removeFailsEnv sampleWorld = some run ∧
      ⟨.remove (outputPath 1), some (.pathError "remove" (outputPath 1) 1)⟩ ∈ run.world.trace ∧
      run.ret = .ok r ∧
      (main sampleMarshal sampleErrText "prog" ["1"] removeFailsEnv sampleWorld).map Exit.code
        = some 0 :=
  ⟨_, _, rfl, by decide, rfl, by decide⟩

/-- C7, amended. Every run of benchmarkIO returns, and every failure of a
call that opens (`os.Open`, `os.Create`), reads or writes a file during the
run is what it returns: an error, the one of the failed call, and no result;
`main` then exits with code 1 and prints nothing on standard output. A failure
of `os.Remove` is ignored: what benchmarkIO returns is the same whether the
removal fails or not. -/
theorem open_read_write_failures_reported (n : Int) (env : Env) (w : World) :
    ∃ run evs, benchmarkIO n env w = some run ∧ run.world.trace = w.trace ++ evs ∧
      (∀ ev ∈ evs, ev.op.isOpenReadWrite = true → ∀ e, ev.err = some e → e ≠ .eof →
        run.ret = .error e) ∧
      (∀ f, ( benchmarkIO n { env with removeFault := f } w).map Run.ret = some run.ret) ∧
      (∀ e, run.ret = .error e →
        ∀ (marshal : BenchmarkResult → Except GoError String) (errText : GoError → String)
          (prog arg : String), Atoi arg = .ok n →
          ∃ ex, main marshal errText prog [arg] env w = some ex ∧ ex.code = 1 ∧
            ex.stdout = "") := by
  obtain ⟨run, h, evs, hS, hR⟩ := benchmarkIO_sound n env w
  refine ⟨run, evs, h, hS.1, hR, fun f => ?_, fun e he marshal errText prog arg ha => ?_⟩
  · rw [benchmarkIO_ret_removeFault, h]; rfl
  · refine ⟨_, main_of_run marshal errText prog arg n env w run ha h, ?_⟩
    rw [he]
    exact ⟨rfl, rfl⟩

/-- Witness of C7 amended: the first `Write` fails with errno 28, and that
error is what the run returns. -/
theorem open_read_write_failures_reported_witness :
    (∃ run, benchmarkIO 1 writeFailsEnv sampleWorld = some run ∧
      run.ret = .error (.pathError "write" (outputPath 1) 28) ∧
      ⟨.write (outputPath 1) [1, 2, 3], some (.pathError "write" (outputPath 1) 28)⟩
        ∈ run.world.trace) ∧
    ∃ run evs, benchmarkIO 1 writeFailsEnv sampleWorld = some run ∧
      run.world.trace = sampleWorld.trace ++ evs ∧
      (∀ ev ∈ evs, ev.op.isOpenReadWrite = true → ∀ e, ev.err = some e → e ≠ .eof →
        run.ret = .error e) ∧
      (∀ f, ( benchmarkIO 1 { writeFailsEnv with removeFault := f } sampleWorld).map Run.ret
        = some run.ret) ∧
      (∀ e, run.ret = .error e →
        ∀ (marshal : BenchmarkResult → Except GoError String) (errText : GoError → String)
          (prog arg : String), Atoi arg = .ok 1 →
          ∃ ex, main marshal errText prog [arg] writeFailsEnv sampleWorld = some ex ∧
            ex.code = 1 ∧ ex.stdout = "") :=
  ⟨⟨_, rfl, rfl, by decide⟩, open_read_write_failures_reported 1 writeFailsEnv sampleWorld⟩

theorem FS.unlink_congr (fs1 fs2 : FS) (p : String) (hl : fs1.links = fs2.links)
    (hf : ∀ q, q ≠ p → fs1.files q = fs2.files q) : fs1.unlink p = fs2.unlink p := by
  simp only [FS.unlink, FS.mk.injEq]
  constructor
  · funext q
    by_cases h : q = p
    · simp [h]
    · simp [h, hf q h]
  · rw [hl]

theorem FS.resolve_self (fs : FS) (p : String) (h : fs.links p = none) : fs.resolve p = p := by
  simp [FS.resolve, h]

/-- C8 as stated fails. When the input path is a symbolic link to the output
file, the first run of benchmarkIO `1` returns a result (its `os.Create` has
emptied the file both paths lead to) and removes the output file, after which
the input path leads nowhere and the second run fails with "not found". And
when the output name is a link to the input file, the run copies nothing and
leaves the input empty, where the same world without that entry has three
bytes copied and the input intact. -/
theorem idempotence_counterexample :
    (backLinkedWorld.fs.lookup (inputPath 1) = some [1, 2, 3] ∧ sampleEnv.noFaults ∧
      ∃ r w1 run2, benchmarkIO 1 sampleEnv backLinkedWorld = some ⟨.ok r, w1⟩ ∧
        benchmarkIO 1 sampleEnv w1 = some run2 ∧
        run2.ret = .error (.errorf "test file ../data/test_1mb.txt not found")) ∧
    ((∀ q, q ≠ outputPath 1 → linkedWorld.fs.files q = sampleWorld.fs.files q ∧
        linkedWorld.fs.links q = sampleWorld.fs.links q) ∧
      ∃ r a b, benchmarkIO 1 sampleEnv linkedWorld = some ⟨.ok r, a⟩ ∧
        benchmarkIO 1 sampleEnv sampleWorld = some ⟨.ok r, b⟩ ∧
        written (outputPath 1) a.trace = [] ∧ written (outputPath 1) b.trace = [1, 2, 3] ∧
        a.fs.lookup (inputPath 1) = some [] ∧ b.fs.lookup (inputPath 1) = some [1, 2, 3]) := by
  refine ⟨⟨by decide, by decide, _, _, _, rfl, rfl, rfl⟩, ⟨fun q hq => ?_,
    _, _, _, rfl, rfl, by decide, by decide, by decide, by decide⟩⟩
  have hq2 : q ≠ "../data/test_1mb.go.out" := hq
  simp [linkedWorld, sampleWorld, hq2]

/-- C8, amended. Idempotence. With an existing input file whose path does not
resolve to the name of the output path, and no failing call, two runs of
benchmarkIO `N` in sequence both return a result, and the second leaves the
files exactly as the first left them. When moreover the output path is not a
link, the outcome of a run does not depend on the regular output file it
finds: from any world that differs from `w` at most in that file, the run
returns the same result (so the same `FileSizeMB`), copies the same bytes,
those of the input, and leaves the same files. -/
theorem benchmarkIO_idempotent (n : Int) (env1 env2 : Env) (w : World) (content : List Byte)
    (hin : w.fs.lookup (inputPath n) = some content)
    (hnode : w.fs.resolve (inputPath n) ≠ outputPath n)
    (h1 : env1.noFaults) (h2 : env2.noFaults) :
    ∃ w1 w2 evs, benchmarkIO n env1 w = some ⟨.ok (report n env1), w1⟩ ∧
      benchmarkIO n env2 w1 = some ⟨.ok (report n env2), w2⟩ ∧ w2.fs = w1.fs ∧
      w1.trace = w.trace ++ evs ∧
      (w.fs.links (outputPath n) = none →
        written (outputPath n) evs = content ∧
        ∀ v : World, v.fs.links = w.fs.links →
          (∀ q, q ≠ outputPath n → v.fs.files q = w.fs.files q) →
          ∃ evs2, benchmarkIO n env1 v
              = some ⟨.ok (report n env1), ⟨w1.fs, v.trace ++ evs2⟩⟩ ∧
            written (outputPath n) evs2 = content) := by
  have hne := inputPath_ne_outputPath n n
  obtain ⟨evs, ha, hb⟩ := benchmarkIO_ok n env1 w content h1 hin
  generalize hc3 : (if w.fs.resolve (outputPath n) = w.fs.resolve (inputPath n) then []
    else content) = c3 at ha hb
  generalize hqo : w.fs.resolve (outputPath n) = qo at ha hb hc3
  have hl1 : ((w.fs.set qo (some c3)).unlink (outputPath n)).links (inputPath n)
      = w.fs.links (inputPath n) := by
    rw [FS.unlink_links_other _ _ _ hne]
    rfl
  have hres1 : ((w.fs.set qo (some c3)).unlink (outputPath n)).resolve (inputPath n)
      = w.fs.resolve (inputPath n) := by
    simp only [FS.resolve, hl1]
  have hin1 : ∃ c2, ((w.fs.set qo (some c3)).unlink (outputPath n)).lookup (inputPath n)
      = some c2 := by
    unfold FS.lookup
    rw [hres1, FS.unlink_files_other _ _ _ hnode]
    by_cases he : w.fs.resolve (inputPath n) = qo
    · exact ⟨c3, by rw [he]; exact FS.set_same _ _ _⟩
    · exact ⟨content, by rw [FS.set_other _ _ _ _ he]; exact hin⟩
  obtain ⟨c2, hin1⟩ := hin1
  obtain ⟨evs3, hc, _⟩ := benchmarkIO_ok n env2
    ⟨(w.fs.set qo (some c3)).unlink (outputPath n), w.trace ++ evs⟩ c2 h2 hin1
  have hro : ((w.fs.set qo (some c3)).unlink (outputPath n)).resolve (outputPath n)
      = outputPath n := FS.resolve_self _ _ (FS.unlink_links _ _)
  refine ⟨_, _, evs, ha, hc, ?_, rfl, fun hout => ?_⟩
  · show (FS.unlink (FS.set _ _ _) _) = _
    rw [hro, FS.set_unlink]
    exact FS.unlink_absent _ _ (FS.unlink_files _ _) (FS.unlink_links _ _)
  · have hqo2 : qo = outputPath n := by rw [← hqo]; exact FS.resolve_self _ _ hout
    have hc3b : c3 = content := by
      rw [← hc3, if_neg]
      rw [hqo2]
      exact Ne.symm hnode
    refine ⟨by rw [hb, hc3b], fun v hvl hvf => ?_⟩
    have hvres : v.fs.resolve (inputPath n) = w.fs.resolve (inputPath n) := by
      simp only [FS.resolve, hvl]
    have hvo : v.fs.resolve (outputPath n) = outputPath n :=
      FS.resolve_self _ _ (by rw [hvl]; exact hout)
    have hvin : v.fs.lookup (inputPath n) = some content := by
      unfold FS.lookup
      rw [hvres, hvf _ hnode]
      exact hin
    obtain ⟨evs2, hd, he⟩ := benchmarkIO_ok n env1 v content h1 hvin
    rw [hvo, hvres, if_neg (Ne.symm hnode)] at hd he
    refine ⟨evs2, ?_, he⟩
    rw [hd, hqo2, hc3b, FS.set_unlink, FS.set_unlink, FS.unlink_congr v.fs w.fs _ hvl hvf]

/-- Witness of C8 amended: the sample world, and the same world with a stale
output file. -/
theorem benchmarkIO_idempotent_witness :
    sampleWorld.fs.lookup (inputPath 1) = some [1, 2, 3] ∧
    sampleWorld.fs.resolve (inputPath 1) ≠ outputPath 1 ∧ sampleEnv.noFaults ∧
    sampleWorld.fs.links (outputPath 1) = none ∧
    staleWorld.fs.links = sampleWorld.fs.links ∧
    (∀ q, q ≠ outputPath 1 → staleWorld.fs.files q = sampleWorld.fs.files q) ∧
    staleWorld.fs.files (outputPath 1) ≠ sampleWorld.fs.files (outputPath 1) ∧
    ∃ w1 w2 evs, benchmarkIO 1 sampleEnv sampleWorld = some ⟨.ok (report 1 sampleEnv), w1⟩ ∧
      benchmarkIO 1 sampleEnv w1 = some ⟨.ok (report 1 sampleEnv), w2⟩ ∧ w2.fs = w1.fs ∧
      w1.trace = sampleWorld.trace ++ evs ∧
      (sampleWorld.fs.links (outputPath 1) = none →
        written (outputPath 1) evs = [1, 2, 3] ∧
        ∀ v : World, v.fs.links = sampleWorld.fs.links →
          (∀ q, q ≠ outputPath 1 → v.fs.files q = sampleWorld.fs.files q) →
          ∃ evs2, benchmarkIO 1 sampleEnv v
              = some ⟨.ok (report 1 sampleEnv), ⟨w1.fs, v.trace ++ evs2⟩⟩ ∧
            written (outputPath 1) evs2 = [1, 2, 3]) :=
  ⟨by decide, by decide, by decide, rfl, rfl,
    fun q hq => by
      have hq2 : q ≠ "../data/test_1mb.go.out" := hq
      simp [staleWorld, sampleWorld, hq2],
    by decide,
    benchmarkIO_idempotent 1 sampleEnv sampleEnv sampleWorld [1, 2, 3] (by decide) (by decide)
      (by decide) (by decide)⟩

/-- What `fmt.Println` writes for a text without newline is one line. -/
theorem println_one_line (js : String) (h : js.data.count '\n' = 0) :
    (js ++ "\n").data.count '\n' = 1 := by
  rw [String.data_append, List.count_append, h]
  rfl

/-- C9. Every run of `main` ends in one of two ways. Either it exits with
code 0, has written nothing to standard error, and the argument was a single
number, benchmarkIO returned a result and `json.Marshal` encoded it:
standard output is then that encoding followed by a newline, which is exactly
one line when the encoding holds no newline (`json.Marshal` emits none). Or it
exits with code 1, has written nothing to standard output and a message to
standard error, and one of the three (argument, benchmark, encoding) did not
succeed. -/
theorem exit_status_and_stdout (marshal : BenchmarkResult → Except GoError String)
    (errText : GoError → String) (prog : String) (argv : List String) (env : Env) (w : World) :
    ∃ ex, main marshal errText prog argv env w = some ex ∧
      ((ex.code = 0 ∧ ex.stderr = "" ∧
          ∃ arg n r w2 js, argv = [arg] ∧ Atoi arg = .ok n ∧
            benchmarkIO n env w = some ⟨.ok r, w2⟩ ∧ marshal r = .ok js ∧
            ex.stdout = js ++ "\n" ∧
            (js.data.count '\n' = 0 → ex.stdout.data.count '\n' = 1)) ∨
       (ex.code = 1 ∧ ex.stdout = "" ∧ ex.stderr ≠ "" ∧
          ¬ ∃ arg n r w2 js, argv = [arg] ∧ Atoi arg = .ok n ∧
            benchmarkIO n env w = some ⟨.ok r, w2⟩ ∧ marshal r = .ok js)) := by
  by_cases hlen : argv.length = 1
  · obtain ⟨arg, rfl⟩ := List.length_eq_one.1 hlen
    cases ha : Atoi arg with
    | error e =>
      refine ⟨⟨1, "", "Invalid file size: " ++ errText e ++ "\n", w⟩, ?_, Or.inr ⟨rfl, rfl,
        append_ne_empty _ _ (append_ne_empty _ _ (by decide)), ?_⟩⟩
      · unfold main
        rw [if_neg (by simp)]
        simp only [List.headD_cons, ha]
      · rintro ⟨arg2, n, r, w2, js, h1, h2, _⟩
        cases h1
        rw [ha] at h2
        cases h2
    | ok n =>
      obtain ⟨run, hb, _⟩ := benchmarkIO_sound n env w
      have hm := main_of_run marshal errText prog arg n env w run ha hb
      obtain ⟨ret, w2⟩ := run
      cases ret with
      | error e =>
        refine ⟨_, hm, Or.inr ⟨rfl, rfl,
          append_ne_empty _ _ (append_ne_empty _ _ (by decide)), ?_⟩⟩
        rintro ⟨arg2, n2, r, w3, js, h1, h2, h3, _⟩
        cases h1
        rw [ha] at h2
        cases h2
        rw [hb] at h3
        cases h3
      | ok r =>
        cases hj : marshal r with
        | error e =>
          simp only [hj] at hm
          refine ⟨_, hm, Or.inr ⟨rfl, rfl,
            append_ne_empty _ _ (append_ne_empty _ _ (by decide)), ?_⟩⟩
          rintro ⟨arg2, n2, r2, w3, js, h1, h2, h3, h4⟩
          cases h1
          rw [ha] at h2
          cases h2
          rw [hb] at h3
          cases h3
          rw [hj] at h4
          cases h4
        | ok js =>
          simp only [hj] at hm
          exact ⟨_, hm, Or.inl ⟨rfl, rfl, arg, n, r, w2, js, rfl, ha, hb, hj, rfl,
            println_one_line js⟩⟩
  · refine ⟨⟨1, "", "Usage: " ++ prog ++ " <file_size_mb>\n", w⟩, ?_, Or.inr ⟨rfl, rfl,
      append_ne_empty _ _ (append_ne_empty _ _ (by decide)), ?_⟩⟩
    · unfold main
      rw [if_pos (by simpa using hlen)]
    · rintro ⟨arg2, n, r, w2, js, h1, _⟩
      rw [h1] at hlen
      exact hlen rfl

/-- C10 as stated fails: when the output name is a link to the input file,
`os.Create` of the output path truncates the input, and after the run the
input path, a different string, leads to an empty file. -/
theorem frame_counterexample :
    inputPath 1 ≠ outputPath 1 ∧ linkedWorld.fs.lookup (inputPath 1) = some [1, 2, 3] ∧
    ∃ run r, benchmarkIO 1 sampleEnv linkedWorld = some run ∧ run.ret = .ok r ∧
      run.world.fs.files (inputPath 1) = some [] ∧
      run.world.fs.lookup (inputPath 1) = some [] :=
  ⟨by decide, by decide, _, _, rfl, rfl, by decide, by decide⟩

/-- C10, amended. The input path of any size and the output path of any size
are different strings. Every run of benchmarkIO `N`, whether it returns a
result or an error, returns, and every call it issues that creates,
truncates, writes or removes a file is a call on the output path of `N`. The
run changes no link other than the one named by the output path and no
regular file other than the one of that name and the one the output path
resolves to; so the content found under any path that resolves to neither is
after the run what it was before, and when the output path is not a link
every other entry is unchanged. A file the output path is a link to (the
input, in the counterexample) is truncated and overwritten. -/
theorem only_output_file_changes (n m : Int) (env : Env) (w : World) :
    inputPath n ≠ outputPath m ∧
    ∃ run evs, benchmarkIO n env w = some run ∧ run.world.trace = w.trace ++ evs ∧
      (∀ ev ∈ evs, ev.op.target = none ∨ ev.op.target = some (outputPath n)) ∧
      (∀ q, q ≠ outputPath n → run.world.fs.links q = w.fs.links q) ∧
      (∀ q, q ≠ outputPath n → q ≠ w.fs.resolve (outputPath n) →
        run.world.fs.files q = w.fs.files q) ∧
      (∀ q, w.fs.resolve q ≠ outputPath n → w.fs.resolve q ≠ w.fs.resolve (outputPath n) →
        run.world.fs.lookup q = w.fs.lookup q) ∧
      (w.fs.links (outputPath n) = none → ∀ q, q ≠ outputPath n →
        run.world.fs.files q = w.fs.files q ∧ run.world.fs.links q = w.fs.links q) := by
  obtain ⟨run, h, evs, ⟨h1, hl, hf, h3⟩, _⟩ := benchmarkIO_sound n env w
  refine ⟨inputPath_ne_outputPath n m, run, evs, h, h1, h3, hl, hf, ?_, ?_⟩
  · intro q hq1 hq2
    have hqo : q ≠ outputPath n := by
      intro he
      apply hq2
      rw [he]
    have hres : run.world.fs.resolve q = w.fs.resolve q := by
      simp only [FS.resolve, hl q hqo]
    unfold FS.lookup
    rw [hres, hf _ hq1 hq2]
  · intro hout q hq
    refine ⟨hf q hq ?_, hl q hq⟩
    rw [FS.resolve_self _ _ hout]
    exact hq

/-- Witness of C10 amended: with a stale regular output file the input of
three bytes is untouched, and so is what its path leads to. -/
theorem only_output_file_changes_witness :
    staleWorld.fs.links (outputPath 1) = none ∧
    ∃ run, benchmarkIO 1 sampleEnv staleWorld = some run ∧
      run.world.fs.files (inputPath 1) = some [1, 2, 3] ∧
      ∃ run2 evs, benchmarkIO 1 sampleEnv staleWorld = some run2 ∧
        run2.world.trace = staleWorld.trace ++ evs ∧
        (∀ ev ∈ evs, ev.op.target = none ∨ ev.op.target = some (outputPath 1)) ∧
        (∀ q, q ≠ outputPath 1 → run2.world.fs.links q = staleWorld.fs.links q) ∧
        (∀ q, q ≠ outputPath 1 → q ≠ staleWorld.fs.resolve (outputPath 1) →
          run2.world.fs.files q = staleWorld.fs.files q) ∧
        (∀ q, staleWorld.fs.resolve q ≠ outputPath 1 →
          staleWorld.fs.resolve q ≠ staleWorld.fs.resolve (outputPath 1) →
          run2.world.fs.lookup q = staleWorld.fs.lookup q) ∧
        (staleWorld.fs.links (outputPath 1) = none → ∀ q, q ≠ outputPath 1 →
          run2.world.fs.files q = staleWorld.fs.files q ∧
            run2.world.fs.links q = staleWorld.fs.links q) :=
  ⟨rfl, _, rfl, by decide, (only_output_file_changes 1 1 sampleEnv staleWorld).2⟩

end GoBench
